import Mathlib

/-!
# fc-deploy — dependency-layer reconciliation engine, shallow embedding

Shallow embedding of the core of the `fc-deploy` repository and proofs of the
specification claims about it.  External collaborators (the md5 digest, the
filesystem, JSON parsing, the object store and the compute control plane) are
modelled as oracle parameters; all repository logic is translated from the
TypeScript source (`src/utils.ts`, `src/types.ts`, and the current core module
containing `getOrUploadLayer` / `getOrCreateLayer` / `updateLayers` /
`setupLayers`).
-/

namespace FcDeploy

/-- JS `s.includes(pat)`: substring containment, as used for layer-reference and
layer-description matching throughout the source. -/
def strIncludes (s pat : String) : Bool :=
  decide (pat.data <:+: s.data)

/-! ## Fingerprint Generator (`src/utils.ts`, `getPackageDepsHash`) -/

/-- `content.replace(/\r\n/g, '\n')` on the character list: non-overlapping
left-to-right replacement of CRLF by LF. -/
def normCharsCRLF : List Char → List Char
  | [] => []
  | '\r' :: '\n' :: rest => '\n' :: normCharsCRLF rest
  | c :: rest => c :: normCharsCRLF rest

/-- Newline normalization from `getPackageDepsHash` ("normalize newlines for
stable hashing"). -/
def normalizeNewlines (s : String) : String :=
  ⟨normCharsCRLF s.data⟩

/-- JS `Array.prototype.sort()` on the manifest path list (lexicographic). -/
def sortStrings (l : List String) : List String :=
  l.insertionSort (· ≤ ·)

/-- Reads every file of the (sorted) path list via the filesystem oracle and
normalizes newlines; `none` models a rejected `fs.promises.readFile`
(missing or unreadable manifest), which rejects the whole `Promise.all`. -/
def readAllNorm (fsRead : String → Option String) : List String → Option (List String)
  | [] => some []
  | p :: ps =>
    match fsRead p with
    | none => none
    | some c => (readAllNorm fsRead ps).map (normalizeNewlines c :: ·)

/-- Failure modes of `getPackageDepsHash`. -/
inductive HashErr where
  /-- the project `package.json` itself cannot be read (`fs.promises.readFile` rejects) -/
  | projectPkgUnreadable
  /-- `JSON.parse` of the project `package.json` throws -/
  | projectPkgInvalid
  /-- one of the supplied manifest paths cannot be read -/
  | manifestUnreadable
deriving DecidableEq, Repr

/-- `getPackageDepsHash` from `src/utils.ts`.

* `md5fn` — the `crypto` md5 digest (external, deterministic).
* `jsonVersion` — `JSON.parse(content).version`: `none` = parse throws,
  `some v` = parse succeeds with optional `version` field `v`.
* `fsRead` — `fs.promises.readFile`, `none` = rejects.
* `cwdPkgPath` — `path.resolve(process.cwd(), 'package.json')`.

The source reads the project `package.json`, takes
`(JSON.parse(...).version as string | undefined) || ''`, sorts the manifest
paths, reads and newline-normalizes each, and hashes
`[projectVersion, ...fileContents].join('\n')`. -/
def getPackageDepsHash (md5fn : String → String)
    (jsonVersion : String → Option (Option String))
    (fsRead : String → Option String)
    (cwdPkgPath : String) (paths : List String) : Except HashErr String :=
  match fsRead cwdPkgPath with
  | none => .error .projectPkgUnreadable
  | some pkgContent =>
    match jsonVersion pkgContent with
    | none => .error .projectPkgInvalid
    | some versionField =>
      let projectVersion := versionField.getD ""
      match readAllNorm fsRead (sortStrings paths) with
      | none => .error .manifestUnreadable
      | some fileContents =>
        .ok (md5fn (String.intercalate "\n" (projectVersion :: fileContents)))

/-! ### Sorting facts needed for order-invariance -/

theorem sortStrings_sorted (l : List String) :
    List.Sorted (· ≤ ·) (sortStrings l) :=
  List.sorted_insertionSort _ l

theorem sortStrings_perm (l : List String) : (sortStrings l).Perm l :=
  List.perm_insertionSort _ l

theorem sortStrings_eq_of_perm {l₁ l₂ : List String} (h : l₁.Perm l₂) :
    sortStrings l₁ = sortStrings l₂ :=
  List.eq_of_perm_of_sorted
    ((sortStrings_perm l₁).trans (h.trans (sortStrings_perm l₂).symm))
    (sortStrings_sorted l₁) (sortStrings_sorted l₂)

theorem readAllNorm_eq_none_of_missing (fsRead : String → Option String) :
    ∀ {l : List String}, (∃ p ∈ l, fsRead p = none) → readAllNorm fsRead l = none := by
  intro l h
  induction l with
  | nil => simp at h
  | cons p ps ih =>
    rcases h with ⟨q, hq, hnone⟩
    rcases List.mem_cons.mp hq with rfl | hmem
    · simp [readAllNorm, hnone]
    · cases hfp : fsRead p with
      | none => simp [readAllNorm, hfp]
      | some c => simp [readAllNorm, hfp, ih ⟨q, hmem, hnone⟩]

/-- **C5.** Fingerprint determinism: for a fixed filesystem (hence fixed manifest
contents) and fixed project version, `getPackageDepsHash` returns the same
digest regardless of the order in which the manifest paths are supplied —
paths are sorted before their contents are read, CRLF is normalized to LF and
the project version plus contents are joined with single newlines before
hashing. -/
theorem getPackageDepsHash_order_invariant
    (md5fn : String → String) (jsonVersion : String → Option (Option String))
    (fsRead : String → Option String) (cwdPkgPath : String)
    {paths₁ paths₂ : List String} (h : paths₁.Perm paths₂) :
    getPackageDepsHash md5fn jsonVersion fsRead cwdPkgPath paths₁ =
      getPackageDepsHash md5fn jsonVersion fsRead cwdPkgPath paths₂ := by
  unfold getPackageDepsHash
  rw [sortStrings_eq_of_perm h]

/-- Witness for C5 at a concrete permuted pair of manifest path lists. -/
theorem getPackageDepsHash_order_invariant_witness :
    (["b.json", "a.json"] : List String).Perm ["a.json", "b.json"] ∧
      getPackageDepsHash (fun s => s) (fun _ => some (some "1.0.0"))
          (fun p => some ("dep:" ++ p)) "pkg.json" ["b.json", "a.json"] =
        getPackageDepsHash (fun s => s) (fun _ => some (some "1.0.0"))
          (fun p => some ("dep:" ++ p)) "pkg.json" ["a.json", "b.json"] :=
  ⟨by decide, getPackageDepsHash_order_invariant _ _ _ _ (by decide)⟩

/-- **C9 (counterexample).** The claim says the fingerprint computation fails
with `ConfigError` when the project version cannot be determined. In the code
(`src/utils.ts` line 57) the version is `(JSON.parse(...).version) || ''`:
when the `version` field is absent the computation proceeds with the empty
string as default and succeeds — it does not fail. -/
theorem getPackageDepsHash_no_configError :
    getPackageDepsHash (fun s => s) (fun _ => some none)
      (fun _ => some "lockfile-content") "package.json" ["manifest.json"] =
      .ok "\nlockfile-content" := by
  rfl

/-- **C9 (amended).** The fingerprint computation fails with a manifest read
error if any supplied manifest path is missing or unreadable; but when the
project version field cannot be determined (absent from the parsed project
`package.json`) it proceeds with the empty string as default instead of
failing. -/
theorem getPackageDepsHash_manifest_read_error
    (md5fn : String → String) (jsonVersion : String → Option (Option String))
    (fsRead : String → Option String) (cwdPkgPath : String) (paths : List String)
    (pkgContent : String) (versionField : Option String)
    (h1 : fsRead cwdPkgPath = some pkgContent)
    (h2 : jsonVersion pkgContent = some versionField)
    (h3 : ∃ p ∈ paths, fsRead p = none) :
    getPackageDepsHash md5fn jsonVersion fsRead cwdPkgPath paths =
      .error .manifestUnreadable := by
  have hnone : readAllNorm fsRead (sortStrings paths) = none := by
    rcases h3 with ⟨p, hp, hn⟩
    exact readAllNorm_eq_none_of_missing fsRead
      ⟨p, ((sortStrings_perm paths).mem_iff).mpr hp, hn⟩
  simp [getPackageDepsHash, h1, h2, hnone]

/-- Witness for the amended C9 at a concrete unreadable manifest. -/
theorem getPackageDepsHash_manifest_read_error_witness :
    (fun p => if p = "pkg.json" then some "{}" else none) "pkg.json" = some "{}" ∧
      getPackageDepsHash (fun s => s) (fun _ => some (some "2.0.0"))
        (fun p => if p = "pkg.json" then some "{}" else none)
        "pkg.json" ["missing.json"] = .error .manifestUnreadable :=
  ⟨by decide,
   getPackageDepsHash_manifest_read_error _ _ _ _ _ "{}" (some "2.0.0")
     (by decide) rfl ⟨"missing.json", by decide, by decide⟩⟩

/-! ## Layer-reference splice (`updateLayers`, reference-list reconciliation)

The core of `updateLayers`:
```js
let layerIndex = layers.findIndex(a => a.includes(layerName))
if (layerIndex !== -1) { layers[layerIndex] = layerArn } else { layers.unshift(layerArn) }
```
-/

/-- The reference-list splice performed by `updateLayers`. -/
def spliceLayers (layers : List String) (layerName layerArn : String) : List String :=
  match layers.findIdx? (fun a => strIncludes a layerName) with
  | some i => layers.set i layerArn
  | none => layerArn :: layers

/-- Number of entries of a reference list that refer to the managed layer
(substring match, as in the source). -/
def countManaged (layerName : String) (layers : List String) : Nat :=
  (layers.filter (fun a => strIncludes a layerName)).length

theorem spliceLayers_nil (ln arn : String) : spliceLayers [] ln arn = [arn] := rfl

theorem spliceLayers_cons_pos {x ln : String} (xs : List String) (arn : String)
    (h : strIncludes x ln = true) : spliceLayers (x :: xs) ln arn = arn :: xs := by
  simp [spliceLayers, List.findIdx?_cons, h]

theorem spliceLayers_cons_neg {x ln : String} (xs : List String) (arn : String)
    (h : strIncludes x ln = false) :
    spliceLayers (x :: xs) ln arn =
      match xs.findIdx? (fun a => strIncludes a ln) with
      | some _ => x :: spliceLayers xs ln arn
      | none => arn :: x :: xs := by
  simp only [spliceLayers, List.findIdx?_cons, h, Bool.false_eq_true, if_false,
    List.findIdx?_succ]
  cases hfi : xs.findIdx? (fun a => strIncludes a ln) with
  | none => simp
  | some i => simp [List.set]

theorem findIdx?_eq_none_of_all_neg {p : String → Bool} :
    ∀ {l : List String}, (∀ x ∈ l, p x = false) → l.findIdx? p = none := by
  intro l h
  induction l with
  | nil => rfl
  | cons x xs ih =>
    have hx : p x = false := h x (by simp)
    simp [List.findIdx?_cons, hx, List.findIdx?_succ,
      ih fun y hy => h y (List.mem_cons_of_mem _ hy)]

theorem findIdx?_isSome_of_mem {p : String → Bool} :
    ∀ {l : List String} {x : String}, x ∈ l → p x = true →
      ∃ i, l.findIdx? p = some i := by
  intro l x hmem hx
  induction l with
  | nil => simp at hmem
  | cons y ys ih =>
    by_cases hy : p y = true
    · exact ⟨0, by simp [List.findIdx?_cons, hy]⟩
    · rcases List.mem_cons.mp hmem with rfl | hmem'
      · exact absurd hx hy
      · rcases ih hmem' with ⟨i, hi⟩
        exact ⟨i + 1, by simp [List.findIdx?_cons, hy, List.findIdx?_succ, hi]⟩

theorem countManaged_eq_zero_of_all_neg {ln : String} {l : List String}
    (h : ∀ x ∈ l, strIncludes x ln = false) : countManaged ln l = 0 := by
  simp only [countManaged, List.length_eq_zero, List.filter_eq_nil_iff]
  intro a ha
  simp [h a ha]

theorem countManaged_cons_pos {x ln : String} (l : List String)
    (h : strIncludes x ln = true) :
    countManaged ln (x :: l) = countManaged ln l + 1 := by
  simp [countManaged, List.filter, h]

theorem countManaged_cons_neg {x ln : String} (l : List String)
    (h : strIncludes x ln = false) :
    countManaged ln (x :: l) = countManaged ln l := by
  simp [countManaged, List.filter, h]

theorem countManaged_nil (ln : String) : countManaged ln [] = 0 := rfl

theorem countManaged_cons_le (x ln : String) (l : List String) :
    countManaged ln (x :: l) ≤ countManaged ln l + 1 := by
  cases h : strIncludes x ln
  · rw [countManaged_cons_neg l h]; omega
  · rw [countManaged_cons_pos l h]

/-- **C4 (counterexample).** The claim asserts that after reconciliation at
most one entry of the reference list refers to the managed layer name, for
*every* current reference list. When the incoming list already holds two
entries referring to the managed layer, `updateLayers` replaces only the
first (`findIndex`), so two managed entries remain. -/
theorem spliceLayers_atMostOne_cex :
    countManaged "managed"
      (spliceLayers ["managed.1", "managed.2"] "managed" "managed.3") = 2 := by
  decide

/-- **C4 (amended).** For every current reference list, the reconciled list
replaces (in place) the *first* entry containing the managed layer's name with
the resolved reference if such an entry exists, otherwise inserts the resolved
reference at the front; all other entries are preserved verbatim and in their
original relative order; and — provided the incoming list itself contains at
most one entry referring to the managed layer name — the reconciled list also
contains at most one such entry. -/
theorem spliceLayers_reconcile (layers : List String) (ln arn : String) :
    ((∀ y ∈ layers, strIncludes y ln = false) →
        spliceLayers layers ln arn = arn :: layers)
    ∧ (∀ pre x post, layers = pre ++ x :: post →
        (∀ y ∈ pre, strIncludes y ln = false) → strIncludes x ln = true →
        spliceLayers layers ln arn = pre ++ arn :: post)
    ∧ (countManaged ln layers ≤ 1 →
        countManaged ln (spliceLayers layers ln arn) ≤ 1) := by
  refine ⟨?_, ?_, ?_⟩
  · intro h
    unfold spliceLayers
    rw [findIdx?_eq_none_of_all_neg h]
  · intro pre
    induction pre generalizing layers with
    | nil =>
      intro x post hl _ hx
      subst hl
      simp [spliceLayers_cons_pos post arn hx]
    | cons y pre' ih =>
      intro x post hl hpre hx
      subst hl
      have hy : strIncludes y ln = false := hpre y (by simp)
      simp only [List.cons_append]
      rw [spliceLayers_cons_neg (pre' ++ x :: post) arn hy]
      rcases findIdx?_isSome_of_mem (p := fun a => strIncludes a ln)
          (l := pre' ++ x :: post) (x := x) (by simp) hx with ⟨i, hi⟩
      rw [hi]
      have := ih (pre' ++ x :: post) x post rfl
        (fun z hz => hpre z (List.mem_cons_of_mem _ hz)) hx
      simp [this]
  · induction layers with
    | nil =>
      intro _
      rw [spliceLayers_nil]
      have := countManaged_cons_le arn ln []
      rw [countManaged_nil] at this
      omega
    | cons x xs ih =>
      intro hcnt
      by_cases hx : strIncludes x ln = true
      · rw [spliceLayers_cons_pos xs arn hx]
        rw [countManaged_cons_pos xs hx] at hcnt
        have := countManaged_cons_le arn ln xs
        omega
      · have hx' : strIncludes x ln = false := by
          cases h : strIncludes x ln
          · rfl
          · exact absurd h hx
        rw [countManaged_cons_neg xs hx'] at hcnt
        rw [spliceLayers_cons_neg xs arn hx']
        cases hfi : xs.findIdx? (fun a => strIncludes a ln) with
        | some i =>
          show countManaged ln (x :: spliceLayers xs ln arn) ≤ 1
          rw [countManaged_cons_neg _ hx']
          exact ih hcnt
        | none =>
          show countManaged ln (arn :: x :: xs) ≤ 1
          have hzero : countManaged ln xs = 0 := by
            refine countManaged_eq_zero_of_all_neg fun z hz => ?_
            cases h : strIncludes z ln
            · rfl
            · rcases findIdx?_isSome_of_mem (p := fun a => strIncludes a ln)
                hz h with ⟨j, hj⟩
              rw [hfi] at hj
              exact absurd hj (by simp)
          have h1 := countManaged_cons_le arn ln (x :: xs)
          rw [countManaged_cons_neg xs hx'] at h1
          omega

/-- Witness for the amended C4: the spec's own splice example —
`["other-layer:v1","managed-layer:v3"]` reconciled with a resolved
`managed-layer:v4` gives `["other-layer:v1","managed-layer:v4"]`. -/
theorem spliceLayers_reconcile_witness :
    spliceLayers ["other-layer:v1", "managed-layer:v3"] "managed-layer"
        "managed-layer:v4" = ["other-layer:v1", "managed-layer:v4"] :=
  (spliceLayers_reconcile ["other-layer:v1", "managed-layer:v3"] "managed-layer"
      "managed-layer:v4").2.1 ["other-layer:v1"] "managed-layer:v3" [] rfl
    (by decide) (by decide)

/-! ## Client caches (`src/utils.ts`, `getFcClient` / `getOssClient`)

`FC_CLIENTS` and `OSS_CLIENTS` are process-wide objects indexed by
`params.accessKeyId`; a client is constructed (capturing the *whole* supplied
configuration) only when the key is absent, and the cached entry is returned
otherwise. -/

/-- `IFcConfig` from `src/types.ts`. -/
structure IFcConfig where
  accessKeyId : String
  accessKeySecret : String
  fcEndpoint : String
  fcRegionId : String
  fcService : String
  fcFunction : String
deriving DecidableEq, Repr

/-- `IOssConfig` from `src/types.ts`. -/
structure IOssConfig where
  accessKeyId : String
  accessKeySecret : String
  bucket : String
  region : String
deriving DecidableEq, Repr

/-- The configuration captured by `new FcClient(new AliConfig({...}))`. -/
structure FcClientData where
  accessKeyId : String
  accessKeySecret : String
  endpoint : String
  regionId : String
deriving DecidableEq, Repr

/-- The configuration captured by `new AliOSS({...})`. -/
structure OssClientData where
  accessKeyId : String
  accessKeySecret : String
  bucket : String
  region : String
deriving DecidableEq, Repr

/-- `getFcClient` with the `FC_CLIENTS` cache made explicit (association list
keyed by `accessKeyId`); returns the client together with the updated cache. -/
def getFcClient (cache : List (String × FcClientData)) (params : IFcConfig) :
    FcClientData × List (String × FcClientData) :=
  match cache.lookup params.accessKeyId with
  | some c => (c, cache)
  | none =>
    let c : FcClientData :=
      { accessKeyId := params.accessKeyId
        accessKeySecret := params.accessKeySecret
        endpoint := params.fcEndpoint
        regionId := params.fcRegionId }
    (c, (params.accessKeyId, c) :: cache)

/-- `getOssClient` with the `OSS_CLIENTS` cache made explicit. -/
def getOssClient (cache : List (String × OssClientData)) (params : IOssConfig) :
    OssClientData × List (String × OssClientData) :=
  match cache.lookup params.accessKeyId with
  | some c => (c, cache)
  | none =>
    let c : OssClientData :=
      { accessKeyId := params.accessKeyId
        accessKeySecret := params.accessKeySecret
        bucket := params.bucket
        region := params.region }
    (c, (params.accessKeyId, c) :: cache)

/-- **C10.** Both process-wide client caches are keyed by `accessKeyId` alone:
when two successive calls share an `accessKeyId` that was not cached before
the first call, the second call returns the client constructed from the first
call's configuration — the second configuration's endpoint/region (FC) and
bucket/region (OSS) are ignored. -/
theorem client_caches_keyed_by_accessKeyId
    (fcCache : List (String × FcClientData)) (cfg₁ cfg₂ : IFcConfig)
    (ossCache : List (String × OssClientData)) (ocfg₁ ocfg₂ : IOssConfig)
    (hfk : cfg₂.accessKeyId = cfg₁.accessKeyId)
    (hfm : fcCache.lookup cfg₁.accessKeyId = none)
    (hok : ocfg₂.accessKeyId = ocfg₁.accessKeyId)
    (hom : ossCache.lookup ocfg₁.accessKeyId = none) :
    ((getFcClient (getFcClient fcCache cfg₁).2 cfg₂).1
        = (getFcClient fcCache cfg₁).1
      ∧ (getFcClient fcCache cfg₁).1.endpoint = cfg₁.fcEndpoint
      ∧ (getFcClient fcCache cfg₁).1.regionId = cfg₁.fcRegionId)
    ∧ ((getOssClient (getOssClient ossCache ocfg₁).2 ocfg₂).1
        = (getOssClient ossCache ocfg₁).1
      ∧ (getOssClient ossCache ocfg₁).1.bucket = ocfg₁.bucket
      ∧ (getOssClient ossCache ocfg₁).1.region = ocfg₁.region) := by
  constructor
  · simp [getFcClient, hfm, hfk]
  · simp [getOssClient, hom, hok]

/-- Witness for C10: two FC configs and two OSS configs sharing an access key
but with different endpoints/regions/buckets, from empty caches. -/
theorem client_caches_keyed_by_accessKeyId_witness :
    (getFcClient
        (getFcClient [] ⟨"ak", "sk", "ep1", "rg1", "s", "f"⟩).2
        ⟨"ak", "sk2", "ep2", "rg2", "s2", "f2"⟩).1
      = ⟨"ak", "sk", "ep1", "rg1"⟩
    ∧ (getOssClient
        (getOssClient [] ⟨"ak", "sk", "bucket1", "oss-rg1"⟩).2
        ⟨"ak", "sk2", "bucket2", "oss-rg2"⟩).1
      = ⟨"ak", "sk", "bucket1", "oss-rg1"⟩ := by
  have h := client_caches_keyed_by_accessKeyId []
    ⟨"ak", "sk", "ep1", "rg1", "s", "f"⟩ ⟨"ak", "sk2", "ep2", "rg2", "s2", "f2"⟩
    [] ⟨"ak", "sk", "bucket1", "oss-rg1"⟩ ⟨"ak", "sk2", "bucket2", "oss-rg2"⟩
    rfl rfl rfl rfl
  exact ⟨by rw [h.1.1]; rfl, by rw [h.2.1]; rfl⟩

/-! ## The layer reconciliation engine

Shallow embedding of the current core module (`getOrUploadLayer`,
`getOrCreateLayer`, `updateLayers`, `setupLayers`). Remote state (object store
and control plane) is threaded explicitly through a `World`; remote and local
side effects are recorded as an `Event` trace. Transient faults of the
collaborators are injected through oracle parameters. -/

/-- A remote layer version as returned by the control plane
(`Layer` of `@alicloud/fc-open20210406`: name, numeric version, free-text
description, opaque `arn` reference). -/
structure Layer where
  layerName : String
  version : Nat
  description : String
  arn : String
deriving DecidableEq, Repr

/-- The artifact handle returned by `getOrUploadLayer`. -/
structure LayerObject where
  depFileName : String
  objectName : String
deriving DecidableEq, Repr

/-- Observable side effects, in execution order. -/
inductive Event where
  /-- `zip(nodeModulesPath, targetPath, {destPath: 'nodejs/node_modules'})` -/
  | compress
  /-- `ossClient.put(objectName, ...)` -/
  | upload (objectName : String)
  /-- `fcClient.listLayerVersions(layerName, {maxItems: 10})` -/
  | listVersions
  /-- one attempt of `fcClient.createLayerVersion` under `retry` -/
  | publishAttempt
  /-- a successful `createLayerVersion` (a new layer version exists remotely) -/
  | publish (description ossObjectName : String)
  /-- `fcClient.getFunction(service, function)` -/
  | getFn (service fcFunction : String)
  /-- a successful `fcClient.updateFunction` for the target -/
  | updateFn (funcName : String)
  /-- `layerConfig.setHash({funcName, hash})` (fingerprint write-back) -/
  | setHashEvt (funcName hash : String)
deriving DecidableEq, Repr

/-- Remote and persistent state threaded through the engine. -/
structure World where
  /-- object keys present in the OSS bucket -/
  oss : List String
  /-- versions of the managed layer, most recent first;
      `none` models `LayerNotFound` (the layer was never created) -/
  fcLayerVersions : Option (List Layer)
  /-- control-plane version counter (source of fresh version numbers/arns) -/
  nextVersion : Nat
  /-- total `createLayerVersion` attempts made so far (indexes the fault oracle) -/
  attempts : Nat
  /-- per-function layer-reference lists, keyed by (service, function) -/
  funcs : List ((String × String) × List String)
deriving DecidableEq, Repr

/-- Failure modes of the engine (thrown `Error`s of the source). -/
inductive Err where
  | hashErr (e : HashErr)
  /-- `'必须传入getHash和setHash方法'` -/
  | missingCallbacks
  /-- `'node_modules目录不存在'` -/
  | nodeModulesMissing
  /-- a non-`NoSuchKey` failure of `ossClient.head`, rethrown -/
  | ossHeadError (code : String)
  /-- `createLayerVersion` failed on every retry attempt -/
  | publishFailed
  /-- `'无效的layerName！'` -/
  | invalidLayerName
  /-- `'无效的layerArn'` -/
  | invalidLayerArn
  /-- `updateFunction` failed for the target (orchestrator level) -/
  | updateFailed (funcName : String)
deriving DecidableEq, Repr

/-- Result of a stateful step: value or thrown error, in both cases with the
world as left behind and the trace of effects performed so far. -/
inductive Res (α : Type) where
  | ok (val : α) (w : World) (t : List Event)
  | fail (e : Err) (w : World) (t : List Event)
deriving DecidableEq, Repr

def traceOfRes {α : Type} : Res α → List Event
  | .ok _ _ t => t
  | .fail _ _ t => t

def worldOfRes {α : Type} : Res α → World
  | .ok _ w _ => w
  | .fail _ w _ => w

/-- `isObjectExist` (`src/utils.ts`): `head` the object; success means the
object exists; a `NoSuchKey` error means it does not; any other error code is
rethrown. `headFault objectName = some code` injects a failing `head` call
with that error code. -/
def isObjectExist (headFault : String → Option String) (oss : List String)
    (objectName : String) : Except String Bool :=
  match headFault objectName with
  | some code => if code = "NoSuchKey" then .ok false else .error code
  | none => .ok (oss.contains objectName)

def depFileNameOf (curHash : String) : String :=
  "node_modules@" ++ curHash ++ ".zip"

def objectNameOf (layerName curHash : String) : String :=
  "/fc-deploy/" ++ layerName ++ "/" ++ depFileNameOf curHash

/-- The artifact handle `{ depFileName, objectName }` built by `getOrUploadLayer`. -/
def layerObjectOf (layerName curHash : String) : LayerObject :=
  { depFileName := depFileNameOf curHash
    objectName := objectNameOf layerName curHash }

/-- `getOrUploadLayer`: derive the artifact key from the layer name and the
fingerprint, return it untouched when the object already exists, otherwise
compress `node_modules` and upload it. `nmExists` is
`fs.existsSync(nodeModulesPath)`. -/
def getOrUploadLayer (nmExists : Bool) (headFault : String → Option String)
    (layerName curHash : String) (w : World) (t : List Event) : Res LayerObject :=
  if nmExists = false then .fail .nodeModulesMissing w t
  else
    match isObjectExist headFault w.oss (objectNameOf layerName curHash) with
    | .error code => .fail (.ossHeadError code) w t
    | .ok true => .ok (layerObjectOf layerName curHash) w t
    | .ok false =>
      .ok (layerObjectOf layerName curHash)
        { w with oss := objectNameOf layerName curHash :: w.oss }
        (t ++ [.compress, .upload (objectNameOf layerName curHash)])

/-- `str.startsWith('/') ? str.substring(1) : str` (`src/utils.ts`). -/
def removePrecedingSlash (s : String) : String :=
  if s.startsWith "/" then s.drop 1 else s

/-- `params.layerConfig.layerDescription || 'fcd自定义依赖打包 '` (JS `||`:
`undefined` and the empty string both fall back to the default). -/
def effDescription (layerDescription : Option String) : String :=
  match layerDescription with
  | some d => if d = "" then "fcd自定义依赖打包 " else d
  | none => "fcd自定义依赖打包 "

/-- `[layerDescription || default, depFileName].join('/')` — the description
published with a new layer version. -/
def publishDesc (layerDescription : Option String) (depFileName : String) : String :=
  effDescription layerDescription ++ "/" ++ depFileName

/-- The opaque reference assigned by the control plane to a newly published
version (modelled deterministically from the layer name and version number). -/
def mkArn (layerName : String) (v : Nat) : String :=
  "acs:fc:layers/" ++ layerName ++ "/versions/" ++ toString v

/-- The version window scanned by `getOrCreateLayer`:
`listLayerVersions(layerName, { maxItems: 10 })`, most recent first
(empty when the layer does not exist — the `LayerNotFound` catch). -/
def listedLayers (w : World) : List Layer :=
  (w.fcLayerVersions.getD []).take 10

/-- `existingLayers?.body?.layers?.find(l => l.description?.includes(curHash))`. -/
def findMatch (w : World) (curHash : String) : Option Layer :=
  (listedLayers w).find? (fun l => strIncludes l.description curHash)

/-- The bounded publish loop: `retry(createLayerVersion, { retries: 3 })` of
`async-retry` — one initial attempt plus up to 3 retries. `publishOk n`
decides whether the `n`-th `createLayerVersion` attempt of the whole batch
succeeds; on success the new version is prepended to the remote list. -/
def retryCreate (publishOk : Nat → Bool) (layerName desc codeObjectName : String) :
    Nat → World → List Event → Res Layer
  | 0, w, t => .fail .publishFailed w t
  | fuel + 1, w, t =>
    if publishOk w.attempts then
      let ly : Layer :=
        { layerName := layerName, version := w.nextVersion, description := desc
          arn := mkArn layerName w.nextVersion }
      .ok ly
        { w with
            fcLayerVersions := some (ly :: w.fcLayerVersions.getD [])
            nextVersion := w.nextVersion + 1
            attempts := w.attempts + 1 }
        (t ++ [.publishAttempt, .publish desc codeObjectName])
    else
      retryCreate publishOk layerName desc codeObjectName fuel
        { w with attempts := w.attempts + 1 } (t ++ [.publishAttempt])

/-- Total number of attempts allowed by `retry(..., { retries: 3 })`. -/
def retryBudget : Nat := 4

/-- `getOrCreateLayer`: list the most recent versions of the managed layer
(at most 10; `LayerNotFound` treated as no versions), reuse the first whose
description contains the current fingerprint, otherwise publish a new version
under bounded retry with a description embedding the artifact file name. -/
def getOrCreateLayer (publishOk : Nat → Bool) (curHash : String)
    (layerDescription : Option String) (layerName : String) (lo : LayerObject)
    (w : World) (t : List Event) : Res Layer :=
  match findMatch w curHash with
  | some prevLayer => .ok prevLayer w (t ++ [.listVersions])
  | none =>
    retryCreate publishOk layerName (publishDesc layerDescription lo.depFileName)
      (removePrecedingSlash lo.objectName) retryBudget w (t ++ [.listVersions])

/-- `updateLayers`: fetch the target's current layer list (`getFunction`),
resolve the layer version, validate its name and reference, and splice the
resolved reference into the list. -/
def updateLayers (publishOk : Nat → Bool) (curHash : String)
    (fcConfig : IFcConfig) (layerDescription : Option String) (layerName : String)
    (lo : LayerObject) (w : World) (t : List Event) : Res (List String) :=
  match getOrCreateLayer publishOk curHash layerDescription layerName lo w
      (t ++ [.getFn fcConfig.fcService fcConfig.fcFunction]) with
  | .fail e w₁ t₂ => .fail e w₁ t₂
  | .ok fcLayer w₁ t₂ =>
    if fcLayer.layerName = "" then .fail .invalidLayerName w₁ t₂
    else if fcLayer.arn = "" then .fail .invalidLayerArn w₁ t₂
    else .ok (spliceLayers
        ((w.funcs.lookup (fcConfig.fcService, fcConfig.fcFunction)).getD [])
        fcLayer.layerName fcLayer.arn) w₁ t₂

/-- `` `${fcConfig.fcService}-${fcConfig.fcFunction}` `` — the persistence key
of a target. -/
def funcKey (c : IFcConfig) : String :=
  c.fcService ++ "-" ++ c.fcFunction

/-- The sequential per-target loop of `setupLayers`: targets whose previous
fingerprint equals the current one contribute `none`; for the others
`updateLayers` is run and its result collected, in input order. -/
def setupLoop (publishOk : Nat → Bool) (curHash : String)
    (layerDescription : Option String) (layerName : String) (lo : LayerObject) :
    List (IFcConfig × String) → World → List Event → Res (List (Option (List String)))
  | [], w, t => .ok [] w t
  | (c, prevHash) :: rest, w, t =>
    if prevHash = curHash then
      match setupLoop publishOk curHash layerDescription layerName lo rest w t with
      | .fail e w' t' => .fail e w' t'
      | .ok rs w' t' => .ok (none :: rs) w' t'
    else
      match updateLayers publishOk curHash c layerDescription layerName lo w t with
      | .fail e w₁ t₁ => .fail e w₁ t₁
      | .ok ls w₁ t₁ =>
        match setupLoop publishOk curHash layerDescription layerName lo rest w₁ t₁ with
        | .fail e w' t' => .fail e w' t'
        | .ok rs w' t' => .ok (some ls :: rs) w' t'

/-- The batch result of `setupLayers`: the computed hash, and `layers =
undefined` (the "no layer work needed" sentinel) or one optional reference
list per target. -/
structure SetupResult where
  hash : String
  layers : Option (List (Option (List String)))
deriving DecidableEq, Repr

/-- `setupLayers` (current core module): compute the fingerprint, require the
persistence callbacks, read every target's previous fingerprint, short-circuit
when nothing changed anywhere, otherwise ensure the artifact once and
reconcile each changed target sequentially.

* `getHash funcName` — the persistence collaborator (`layerConfig.getHash`).
* `hasGetHash` / `hasSetHash` — presence of the callbacks (the runtime guard
  `if (!getHash || !setHash) throw`). -/
def setupLayers (md5fn : String → String)
    (jsonVersion : String → Option (Option String))
    (fsRead : String → Option String) (getHash : String → String)
    (hasGetHash hasSetHash : Bool) (nmExists : Bool)
    (headFault : String → Option String) (publishOk : Nat → Bool)
    (cwdPkgPath : String) (fcConfigs : List IFcConfig)
    (packageJsonLists : Option (List String)) (layerDescription : Option String)
    (layerName : String) (w : World) : Res SetupResult :=
  match getPackageDepsHash md5fn jsonVersion fsRead cwdPkgPath
      (packageJsonLists.getD [cwdPkgPath]) with
  | .error e => .fail (.hashErr e) w []
  | .ok curHash =>
    if hasGetHash = false ∨ hasSetHash = false then .fail .missingCallbacks w []
    else
      if (fcConfigs.map (fun c => getHash (funcKey c))).all
          (fun h => h = curHash) then
        .ok { hash := curHash, layers := none } w []
      else
        match getOrUploadLayer nmExists headFault layerName curHash w [] with
        | .fail e w₁ t₁ => .fail e w₁ t₁
        | .ok lo w₁ t₁ =>
          match setupLoop publishOk curHash layerDescription layerName lo
              (fcConfigs.zip (fcConfigs.map (fun c => getHash (funcKey c))))
              w₁ t₁ with
          | .fail e w₂ t₂ => .fail e w₂ t₂
          | .ok rs w₂ t₂ => .ok { hash := curHash, layers := some rs } w₂ t₂

/-! ### Event classification and counting -/

def evtUpload : Event → Bool
  | .upload _ => true
  | _ => false

def evtCompress : Event → Bool
  | .compress => true
  | _ => false

def evtListVersions : Event → Bool
  | .listVersions => true
  | _ => false

def evtPublishAttempt : Event → Bool
  | .publishAttempt => true
  | _ => false

def evtSetHash : Event → Bool
  | .setHashEvt _ _ => true
  | _ => false

/-- Events emitted by the version-resolution / reference-reconciliation part
of the engine (`getOrCreateLayer` / `updateLayers`). -/
def layerEvt : Event → Bool
  | .listVersions => true
  | .publishAttempt => true
  | .publish _ _ => true
  | .getFn _ _ => true
  | _ => false

def cnt (p : Event → Bool) (t : List Event) : Nat :=
  (t.filter p).length

theorem cnt_append (p : Event → Bool) (t u : List Event) :
    cnt p (t ++ u) = cnt p t + cnt p u := by
  simp [cnt]

theorem cnt_eq_zero (p : Event → Bool) {u : List Event}
    (h : ∀ e ∈ u, p e = false) : cnt p u = 0 := by
  simp only [cnt, List.length_eq_zero, List.filter_eq_nil_iff]
  intro e he
  simp [h e he]

theorem layerEvt_not_upload {e : Event} (h : layerEvt e = true) :
    evtUpload e = false ∧ evtCompress e = false ∧ evtSetHash e = false := by
  cases e <;> simp_all [layerEvt, evtUpload, evtCompress, evtSetHash]

/-! ### Substring containment facts -/

theorem strIncludes_append_left (a b pat : String)
    (h : strIncludes b pat = true) : strIncludes (a ++ b) pat = true := by
  simp only [strIncludes, decide_eq_true_eq] at h ⊢
  rw [String.data_append]
  exact h.trans (List.suffix_append _ _).isInfix

theorem strIncludes_append_right (a b pat : String)
    (h : strIncludes a pat = true) : strIncludes (a ++ b) pat = true := by
  simp only [strIncludes, decide_eq_true_eq] at h ⊢
  rw [String.data_append]
  exact h.trans (List.prefix_append _ _).isInfix

theorem strIncludes_refl (s : String) : strIncludes s s = true := by
  simp [strIncludes]

/-- The artifact file name `node_modules@<hash>.zip` embeds the fingerprint. -/
theorem strIncludes_depFileName (h : String) :
    strIncludes (depFileNameOf h) h = true := by
  unfold depFileNameOf
  exact strIncludes_append_right _ _ _ (strIncludes_append_left _ _ _ (strIncludes_refl h))

/-- The published description `[layerDescription || default, depFileName].join('/')`
embeds the fingerprint whenever the artifact file name does. -/
theorem strIncludes_publishDesc (layerDescription : Option String)
    {dfn h : String} (hd : strIncludes dfn h = true) :
    strIncludes (publishDesc layerDescription dfn) h = true := by
  unfold publishDesc
  rw [String.append_assoc]
  exact strIncludes_append_left _ _ _ (strIncludes_append_left _ _ _ hd)

/-! ### `retryCreate` specification -/

theorem retryCreate_ok_spec (publishOk : Nat → Bool) (layerName desc co : String) :
    ∀ (fuel : Nat) (w : World) (t : List Event) (ly : Layer) (w' : World)
      (t' : List Event),
      retryCreate publishOk layerName desc co fuel w t = .ok ly w' t' →
      ly.description = desc ∧ ly.layerName = layerName
      ∧ w'.oss = w.oss ∧ w'.funcs = w.funcs
      ∧ w'.nextVersion = w.nextVersion + 1
      ∧ w'.fcLayerVersions = some (ly :: w.fcLayerVersions.getD [])
      ∧ ∃ u, t' = t ++ u ∧ ∀ e ∈ u, layerEvt e = true := by
  intro fuel
  induction fuel with
  | zero => intro w t ly w' t' h; simp [retryCreate] at h
  | succ n ih =>
    intro w t ly w' t' h
    simp only [retryCreate] at h
    by_cases hp : publishOk w.attempts = true
    · rw [if_pos hp] at h
      injection h with h1 h2 h3
      subst h1
      subst h2
      subst h3
      refine ⟨rfl, rfl, rfl, rfl, rfl, rfl, [.publishAttempt, .publish desc co],
        rfl, ?_⟩
      intro e he
      rcases List.mem_cons.mp he with rfl | he'
      · rfl
      · rcases List.mem_cons.mp he' with rfl | h0
        · rfl
        · simp at h0
    · rw [if_neg hp] at h
      obtain ⟨h1, h2, h3, h4, h5, h6, u, hu, hlu⟩ := ih _ _ _ _ _ h
      exact ⟨h1, h2, h3, h4, h5, h6, .publishAttempt :: u, by
        rw [hu, List.append_assoc]; rfl, by
        intro e he
        rcases List.mem_cons.mp he with rfl | he'
        · rfl
        · exact hlu e he'⟩

theorem retryCreate_fail_spec (publishOk : Nat → Bool) (layerName desc co : String) :
    ∀ (fuel : Nat) (w : World) (t : List Event) (e : Err) (w' : World)
      (t' : List Event),
      retryCreate publishOk layerName desc co fuel w t = .fail e w' t' →
      e = .publishFailed
      ∧ w'.oss = w.oss ∧ w'.funcs = w.funcs
      ∧ w'.nextVersion = w.nextVersion
      ∧ w'.fcLayerVersions = w.fcLayerVersions
      ∧ ∃ u, t' = t ++ u ∧ ∀ e' ∈ u, layerEvt e' = true := by
  intro fuel
  induction fuel with
  | zero =>
    intro w t e w' t' h
    simp only [retryCreate] at h
    injection h with h1 h2 h3
    subst h1
    subst h2
    subst h3
    exact ⟨rfl, rfl, rfl, rfl, rfl, [], by simp, by simp⟩
  | succ n ih =>
    intro w t e w' t' h
    simp only [retryCreate] at h
    by_cases hp : publishOk w.attempts = true
    · rw [if_pos hp] at h
      exact absurd h (by simp)
    · rw [if_neg hp] at h
      obtain ⟨h1, h2, h3, h4, h5, u, hu, hlu⟩ := ih _ _ _ _ _ h
      exact ⟨h1, h2, h3, h4, h5, .publishAttempt :: u, by
        rw [hu, List.append_assoc]; rfl, by
        intro e' he'
        rcases List.mem_cons.mp he' with rfl | hm
        · rfl
        · exact hlu e' hm⟩

/-- With a publish oracle that always fails, `retryCreate` performs exactly
`fuel` attempts and then throws. -/
theorem retryCreate_allFail (publishOk : Nat → Bool)
    (hfail : ∀ n, publishOk n = false) (layerName desc co : String) :
    ∀ (fuel : Nat) (w : World) (t : List Event),
      retryCreate publishOk layerName desc co fuel w t =
        .fail .publishFailed { w with attempts := w.attempts + fuel }
          (t ++ List.replicate fuel .publishAttempt) := by
  intro fuel
  induction fuel with
  | zero => intro w t; simp [retryCreate]
  | succ n ih =>
    intro w t
    rw [retryCreate, if_neg (by simp [hfail]), ih]
    have harr : w.attempts + 1 + n = w.attempts + (n + 1) := by omega
    simp [harr, List.append_assoc, List.replicate_succ]

/-- A freshly published matching version is found by the next scan: it sits at
the head of the listed window. -/
theorem findMatch_after_publish {w' : World} {ly : Layer} {curHash : String}
    (hvs : w'.fcLayerVersions = some (ly :: (w'.fcLayerVersions.getD []).tail))
    (hly : strIncludes ly.description curHash = true) :
    findMatch w' curHash = some ly := by
  unfold findMatch listedLayers
  rw [hvs]
  simp [List.find?_cons_of_pos, hly]

/-- Full behavioural specification of `getOrCreateLayer` relative to the world
it starts from (used by the batch-level theorems). -/
theorem getOrCreateLayer_spec (publishOk : Nat → Bool) (curHash : String)
    (layerDescription : Option String) (layerName : String) (lo : LayerObject)
    (w : World) (t : List Event) (r : Res Layer)
    (h : getOrCreateLayer publishOk curHash layerDescription layerName lo w t = r) :
    (worldOfRes r).oss = w.oss ∧ (worldOfRes r).funcs = w.funcs
    ∧ (∃ u, traceOfRes r = t ++ u ∧ ∀ e ∈ u, layerEvt e = true)
    ∧ ((findMatch w curHash).isSome = true → worldOfRes r = w)
    ∧ (worldOfRes r).nextVersion ≤ w.nextVersion + 1
    ∧ (findMatch w curHash = none →
        ((worldOfRes r).nextVersion = w.nextVersion
          ∧ (worldOfRes r).fcLayerVersions = w.fcLayerVersions)
        ∨ ((worldOfRes r).nextVersion = w.nextVersion + 1
          ∧ (strIncludes lo.depFileName curHash = true →
              (findMatch (worldOfRes r) curHash).isSome = true))) := by
  cases hm : findMatch w curHash with
  | some prevLayer =>
    have hr : r = .ok prevLayer w (t ++ [.listVersions]) := by
      rw [← h]
      unfold getOrCreateLayer
      rw [hm]
    subst hr
    refine ⟨rfl, rfl, ⟨[.listVersions], rfl, ?_⟩, fun _ => rfl,
      by show w.nextVersion ≤ w.nextVersion + 1; omega, ?_⟩
    · intro e he
      rcases List.mem_cons.mp he with rfl | h0
      · rfl
      · simp at h0
    · intro hc
      cases hc
  | none =>
    have hr : r = retryCreate publishOk layerName
        (publishDesc layerDescription lo.depFileName)
        (removePrecedingSlash lo.objectName) retryBudget w (t ++ [.listVersions]) := by
      rw [← h]
      unfold getOrCreateLayer
      rw [hm]
    cases hrc : retryCreate publishOk layerName
        (publishDesc layerDescription lo.depFileName)
        (removePrecedingSlash lo.objectName) retryBudget w (t ++ [.listVersions]) with
    | ok ly w' t' =>
      rw [hrc] at hr
      subst hr
      obtain ⟨hd, hn, hoss, hfuncs, hver, hvs, u, hu, hlu⟩ :=
        retryCreate_ok_spec publishOk layerName
          (publishDesc layerDescription lo.depFileName)
          (removePrecedingSlash lo.objectName) retryBudget w _ ly w' t' hrc
      refine ⟨hoss, hfuncs, ⟨.listVersions :: u, ?_, ?_⟩, ?_, ?_, ?_⟩
      · show t' = t ++ ([.listVersions] ++ u)
        rw [← List.append_assoc]
        exact hu
      · intro e he
        rcases List.mem_cons.mp he with rfl | hm'
        · rfl
        · exact hlu e hm'
      · intro hs
        simp at hs
      · show w'.nextVersion ≤ w.nextVersion + 1
        omega
      · intro _
        refine Or.inr ⟨hver, fun hdfn => ?_⟩
        have hfm : findMatch w' curHash = some ly := by
          refine findMatch_after_publish ?_ ?_
          · rw [hvs]
            rfl
          · rw [hd]
            exact strIncludes_publishDesc layerDescription hdfn
        simp [worldOfRes, hfm]
    | fail e w' t' =>
      rw [hrc] at hr
      subst hr
      obtain ⟨he, hoss, hfuncs, hver, hvs, u, hu, hlu⟩ :=
        retryCreate_fail_spec publishOk layerName
          (publishDesc layerDescription lo.depFileName)
          (removePrecedingSlash lo.objectName) retryBudget w _ e w' t' hrc
      refine ⟨hoss, hfuncs, ⟨.listVersions :: u, ?_, ?_⟩, ?_, ?_, ?_⟩
      · show t' = t ++ ([.listVersions] ++ u)
        rw [← List.append_assoc]
        exact hu
      · intro e' he'
        rcases List.mem_cons.mp he' with rfl | hm'
        · rfl
        · exact hlu e' hm'
      · intro hs
        simp at hs
      · show w'.nextVersion ≤ w.nextVersion + 1
        omega
      · intro _
        exact Or.inl ⟨hver, hvs⟩

/-- Behavioural specification of `updateLayers` (same shape as
`getOrCreateLayer_spec`; the reference splice does not touch remote state). -/
theorem updateLayers_spec (publishOk : Nat → Bool) (curHash : String)
    (c : IFcConfig) (layerDescription : Option String) (layerName : String)
    (lo : LayerObject) (w : World) (t : List Event) (r : Res (List String))
    (h : updateLayers publishOk curHash c layerDescription layerName lo w t = r) :
    (worldOfRes r).oss = w.oss ∧ (worldOfRes r).funcs = w.funcs
    ∧ (∃ u, traceOfRes r = t ++ u ∧ ∀ e ∈ u, layerEvt e = true)
    ∧ ((findMatch w curHash).isSome = true → worldOfRes r = w)
    ∧ (worldOfRes r).nextVersion ≤ w.nextVersion + 1
    ∧ (findMatch w curHash = none →
        ((worldOfRes r).nextVersion = w.nextVersion
          ∧ (worldOfRes r).fcLayerVersions = w.fcLayerVersions)
        ∨ ((worldOfRes r).nextVersion = w.nextVersion + 1
          ∧ (strIncludes lo.depFileName curHash = true →
              (findMatch (worldOfRes r) curHash).isSome = true))) := by
  cases hg : getOrCreateLayer publishOk curHash layerDescription layerName lo w
      (t ++ [.getFn c.fcService c.fcFunction]) with
  | ok fcLayer w₁ t₂ =>
    obtain ⟨hoss, hfuncs, ⟨u, hu, hlu⟩, hsome, hver, hnone⟩ :=
      getOrCreateLayer_spec publishOk curHash layerDescription layerName lo w _ _ hg
    simp only [worldOfRes, traceOfRes] at hoss hfuncs hu hsome hver hnone
    have hshape : worldOfRes r = w₁ ∧ traceOfRes r = t₂ := by
      have hr : r = if fcLayer.layerName = "" then Res.fail .invalidLayerName w₁ t₂
          else if fcLayer.arn = "" then Res.fail .invalidLayerArn w₁ t₂
          else Res.ok (spliceLayers
              ((w.funcs.lookup (c.fcService, c.fcFunction)).getD [])
              fcLayer.layerName fcLayer.arn) w₁ t₂ := by
        rw [← h]
        unfold updateLayers
        rw [hg]
      subst hr
      by_cases h1 : fcLayer.layerName = ""
      · rw [if_pos h1]
        exact ⟨rfl, rfl⟩
      · rw [if_neg h1]
        by_cases h2 : fcLayer.arn = ""
        · rw [if_pos h2]
          exact ⟨rfl, rfl⟩
        · rw [if_neg h2]
          exact ⟨rfl, rfl⟩
    rw [hshape.1, hshape.2]
    refine ⟨hoss, hfuncs, ⟨.getFn c.fcService c.fcFunction :: u, ?_, ?_⟩,
      hsome, hver, hnone⟩
    · rw [hu, List.append_assoc]
      rfl
    · intro e he
      rcases List.mem_cons.mp he with rfl | hm'
      · rfl
      · exact hlu e hm'
  | fail e w₁ t₂ =>
    have hr : r = Res.fail e w₁ t₂ := by
      rw [← h]
      unfold updateLayers
      rw [hg]
    subst hr
    obtain ⟨hoss, hfuncs, ⟨u, hu, hlu⟩, hsome, hver, hnone⟩ :=
      getOrCreateLayer_spec publishOk curHash layerDescription layerName lo w _ _ hg
    simp only [worldOfRes, traceOfRes] at hoss hfuncs hu hsome hver hnone ⊢
    refine ⟨hoss, hfuncs, ⟨.getFn c.fcService c.fcFunction :: u, ?_, ?_⟩,
      hsome, hver, hnone⟩
    · rw [hu, List.append_assoc]
      rfl
    · intro e' he'
      rcases List.mem_cons.mp he' with rfl | hm'
      · rfl
      · exact hlu e' hm'

/-- Behavioural specification of the sequential per-target loop: remote
function state and the object store are untouched, only resolution /
reconciliation events are emitted, a pre-existing matching version pins the
world, and at most one new version is ever created. -/
theorem setupLoop_spec (publishOk : Nat → Bool) (curHash : String)
    (layerDescription : Option String) (layerName : String) (lo : LayerObject) :
    ∀ (lst : List (IFcConfig × String)) (w : World) (t : List Event)
      (r : Res (List (Option (List String)))),
      setupLoop publishOk curHash layerDescription layerName lo lst w t = r →
      (worldOfRes r).oss = w.oss ∧ (worldOfRes r).funcs = w.funcs
      ∧ (∃ u, traceOfRes r = t ++ u ∧ ∀ e ∈ u, layerEvt e = true)
      ∧ ((findMatch w curHash).isSome = true → worldOfRes r = w)
      ∧ (strIncludes lo.depFileName curHash = true →
          (worldOfRes r).nextVersion ≤ w.nextVersion + 1) := by
  intro lst
  induction lst with
  | nil =>
    intro w t r h
    simp only [setupLoop] at h
    subst h
    exact ⟨rfl, rfl, ⟨[], by show t = t ++ []; simp, by simp⟩, fun _ => rfl,
      fun _ => by show w.nextVersion ≤ w.nextVersion + 1; omega⟩
  | cons p rest ih =>
    obtain ⟨c, prevHash⟩ := p
    intro w t r h
    simp only [setupLoop] at h
    by_cases hph : prevHash = curHash
    · rw [if_pos hph] at h
      cases hrec : setupLoop publishOk curHash layerDescription layerName lo
          rest w t with
      | ok rs w' t' =>
        have hr : r = .ok (none :: rs) w' t' := by
          rw [← h]
          exact congrArg (fun x => match x with
            | Res.fail e w₂ t₂ => Res.fail e w₂ t₂
            | Res.ok rs₂ w₂ t₂ => Res.ok (none :: rs₂) w₂ t₂) hrec
        subst hr
        obtain ⟨hoss, hfuncs, ⟨u, hu, hlu⟩, hsome, hver⟩ := ih w t _ hrec
        exact ⟨hoss, hfuncs, ⟨u, hu, hlu⟩, hsome, hver⟩
      | fail e w' t' =>
        have hr : r = .fail e w' t' := by
          rw [← h]
          exact congrArg (fun x => match x with
            | Res.fail e₂ w₂ t₂ => Res.fail e₂ w₂ t₂
            | Res.ok rs₂ w₂ t₂ => Res.ok (none :: rs₂) w₂ t₂) hrec
        subst hr
        obtain ⟨hoss, hfuncs, ⟨u, hu, hlu⟩, hsome, hver⟩ := ih w t _ hrec
        exact ⟨hoss, hfuncs, ⟨u, hu, hlu⟩, hsome, hver⟩
    · rw [if_neg hph] at h
      cases hupd : updateLayers publishOk curHash c layerDescription layerName
          lo w t with
      | fail e w₁ t₁ =>
        have hr : r = .fail e w₁ t₁ := by
          rw [← h, hupd]
        subst hr
        obtain ⟨hoss, hfuncs, htr, hsome, hver, _⟩ :=
          updateLayers_spec publishOk curHash c layerDescription layerName
            lo w t _ hupd
        exact ⟨hoss, hfuncs, htr, hsome, fun _ => hver⟩
      | ok ls w₁ t₁ =>
        obtain ⟨hoss1, hfuncs1, ⟨u1, hu1, hlu1⟩, hsome1, hver1, hnone1⟩ :=
          updateLayers_spec publishOk curHash c layerDescription layerName
            lo w t _ hupd
        simp only [worldOfRes, traceOfRes] at hoss1 hfuncs1 hu1 hsome1 hver1 hnone1
        cases hrec : setupLoop publishOk curHash layerDescription layerName lo
            rest w₁ t₁ with
        | ok rs w' t' =>
          have hr : r = .ok (some ls :: rs) w' t' := by
            rw [← h, hupd]
            exact congrArg (fun x => match x with
              | Res.fail e₂ w₂ t₂ => Res.fail e₂ w₂ t₂
              | Res.ok rs₂ w₂ t₂ => Res.ok (some ls :: rs₂) w₂ t₂) hrec
          subst hr
          obtain ⟨hoss2, hfuncs2, ⟨u2, hu2, hlu2⟩, hsome2, hver2⟩ :=
            ih w₁ t₁ _ hrec
          simp only [worldOfRes, traceOfRes] at hoss2 hfuncs2 hu2 hsome2 hver2
          have htr : t' = t ++ (u1 ++ u2) := by
            rw [hu2, hu1, List.append_assoc]
          have hossw : w'.oss = w.oss := by rw [hoss2, hoss1]
          have hfw : w'.funcs = w.funcs := by rw [hfuncs2, hfuncs1]
          refine ⟨hossw, hfw, ⟨u1 ++ u2, htr, ?_⟩, ?_, ?_⟩
          · intro e he
            rcases List.mem_append.mp he with h1 | h2
            · exact hlu1 e h1
            · exact hlu2 e h2
          · intro hK
            have hw1 : w₁ = w := hsome1 hK
            subst hw1
            exact hsome2 hK
          · intro hdfn
            show w'.nextVersion ≤ w.nextVersion + 1
            by_cases hK : (findMatch w curHash).isSome = true
            · have hw1 : w₁ = w := hsome1 hK
              have hw' : w' = w₁ := hsome2 (by rw [hw1]; exact hK)
              rw [hw', hw1]
              omega
            · have hmn : findMatch w curHash = none := by
                cases hfm : findMatch w curHash with
                | none => rfl
                | some ly => rw [hfm] at hK; simp at hK
              rcases hnone1 hmn with ⟨hv1, _⟩ | ⟨hv1, hK1⟩
              · have := hver2 hdfn
                omega
              · have hw' : w' = w₁ := hsome2 (hK1 hdfn)
                rw [hw']
                omega
        | fail e w' t' =>
          have hr : r = .fail e w' t' := by
            rw [← h, hupd]
            exact congrArg (fun x => match x with
              | Res.fail e₂ w₂ t₂ => Res.fail e₂ w₂ t₂
              | Res.ok rs₂ w₂ t₂ => Res.ok (some ls :: rs₂) w₂ t₂) hrec
          subst hr
          obtain ⟨hoss2, hfuncs2, ⟨u2, hu2, hlu2⟩, hsome2, hver2⟩ :=
            ih w₁ t₁ _ hrec
          simp only [worldOfRes, traceOfRes] at hoss2 hfuncs2 hu2 hsome2 hver2
          have htr : t' = t ++ (u1 ++ u2) := by
            rw [hu2, hu1, List.append_assoc]
          have hossw : w'.oss = w.oss := by rw [hoss2, hoss1]
          have hfw : w'.funcs = w.funcs := by rw [hfuncs2, hfuncs1]
          refine ⟨hossw, hfw, ⟨u1 ++ u2, htr, ?_⟩, ?_, ?_⟩
          · intro e' he'
            rcases List.mem_append.mp he' with h1 | h2
            · exact hlu1 e' h1
            · exact hlu2 e' h2
          · intro hK
            have hw1 : w₁ = w := hsome1 hK
            subst hw1
            exact hsome2 hK
          · intro hdfn
            show w'.nextVersion ≤ w.nextVersion + 1
            by_cases hK : (findMatch w curHash).isSome = true
            · have hw1 : w₁ = w := hsome1 hK
              have hw' : w' = w₁ := hsome2 (by rw [hw1]; exact hK)
              rw [hw', hw1]
              omega
            · have hmn : findMatch w curHash = none := by
                cases hfm : findMatch w curHash with
                | none => rfl
                | some ly => rw [hfm] at hK; simp at hK
              rcases hnone1 hmn with ⟨hv1, _⟩ | ⟨hv1, hK1⟩
              · have := hver2 hdfn
                omega
              · have hw' : w' = w₁ := hsome2 (hK1 hdfn)
                rw [hw']
                omega

/-- Behavioural specification of `getOrUploadLayer`: remote layer state is
untouched; either nothing is emitted (artifact already present, or failure) or
exactly one compression followed by one upload; a successful result always
carries the fingerprint-derived artifact name. -/
theorem getOrUploadLayer_spec (nmExists : Bool) (headFault : String → Option String)
    (layerName curHash : String) (w : World) (t : List Event) (r : Res LayerObject)
    (h : getOrUploadLayer nmExists headFault layerName curHash w t = r) :
    (worldOfRes r).funcs = w.funcs ∧ (worldOfRes r).nextVersion = w.nextVersion
    ∧ (worldOfRes r).fcLayerVersions = w.fcLayerVersions
    ∧ (traceOfRes r = t
        ∨ traceOfRes r = t ++ [.compress, .upload (objectNameOf layerName curHash)])
    ∧ (∀ lo w' t', r = .ok lo w' t' → lo.depFileName = depFileNameOf curHash) := by
  by_cases hnm : nmExists = false
  · have hr : r = .fail .nodeModulesMissing w t := by
      rw [← h]
      unfold getOrUploadLayer
      rw [if_pos hnm]
    subst hr
    exact ⟨rfl, rfl, rfl, Or.inl rfl, by intro lo w' t' hc; cases hc⟩
  · cases hoe : isObjectExist headFault w.oss (objectNameOf layerName curHash) with
    | error code =>
      have hr : r = .fail (.ossHeadError code) w t := by
        rw [← h]
        unfold getOrUploadLayer
        rw [if_neg hnm, hoe]
      subst hr
      exact ⟨rfl, rfl, rfl, Or.inl rfl, by intro lo w' t' hc; cases hc⟩
    | ok b =>
      cases b with
      | true =>
        have hr : r = .ok (layerObjectOf layerName curHash) w t := by
          rw [← h]
          unfold getOrUploadLayer
          rw [if_neg hnm, hoe]
        subst hr
        refine ⟨rfl, rfl, rfl, Or.inl rfl, ?_⟩
        intro lo w' t' hc
        injection hc with h1 h2 h3
        rw [← h1]
        rfl
      | false =>
        have hr : r = .ok (layerObjectOf layerName curHash)
            { w with oss := objectNameOf layerName curHash :: w.oss }
            (t ++ [.compress, .upload (objectNameOf layerName curHash)]) := by
          rw [← h]
          unfold getOrUploadLayer
          rw [if_neg hnm, hoe]
        subst hr
        refine ⟨rfl, rfl, rfl, Or.inr rfl, ?_⟩
        intro lo w' t' hc
        injection hc with h1 h2 h3
        rw [← h1]
        rfl

/-- **C3.** If every target's previously stored fingerprint equals the freshly
computed fingerprint, `setupLayers` performs no artifact compression, no
upload and no layer-version publish (the world is untouched and the event
trace is empty), and returns the sentinel "no layer work needed" result
(`layers = undefined`) for the whole batch together with the computed hash. -/
theorem setupLayers_noop
    (md5fn : String → String) (jsonVersion : String → Option (Option String))
    (fsRead : String → Option String) (getHash : String → String)
    (nmExists : Bool) (headFault : String → Option String) (publishOk : Nat → Bool)
    (cwdPkgPath : String) (fcConfigs : List IFcConfig)
    (packageJsonLists : Option (List String)) (layerDescription : Option String)
    (layerName : String) (w : World) (curHash : String)
    (hHash : getPackageDepsHash md5fn jsonVersion fsRead cwdPkgPath
      (packageJsonLists.getD [cwdPkgPath]) = .ok curHash)
    (hAll : ∀ c ∈ fcConfigs, getHash (funcKey c) = curHash) :
    setupLayers md5fn jsonVersion fsRead getHash true true nmExists headFault
      publishOk cwdPkgPath fcConfigs packageJsonLists layerDescription
      layerName w = .ok { hash := curHash, layers := none } w [] := by
  have hall : (fcConfigs.map (fun c => getHash (funcKey c))).all
      (fun h => h = curHash) = true := by
    rw [List.all_eq_true]
    intro x hx
    rcases List.mem_map.mp hx with ⟨c, hc, rfl⟩
    simp [hAll c hc]
  simp only [setupLayers, hHash]
  rw [if_neg (by simp), if_pos hall]

/-- Witness for C3: a two-target batch whose stored fingerprints both equal
the current fingerprint short-circuits to the sentinel. -/
theorem setupLayers_noop_witness :
    setupLayers (fun s => s) (fun _ => some (some "3.0.0"))
        (fun _ => some "deps") (fun _ => "3.0.0\ndeps") true true true
        (fun _ => none) (fun _ => true) "package.json"
        [⟨"ak", "sk", "ep", "rg", "svc", "f1"⟩, ⟨"ak", "sk", "ep", "rg", "svc", "f2"⟩]
        (some ["manifest.json"]) none "mylayer"
        { oss := [], fcLayerVersions := none, nextVersion := 0, attempts := 0,
          funcs := [] }
      = .ok { hash := "3.0.0\ndeps", layers := none }
        { oss := [], fcLayerVersions := none, nextVersion := 0, attempts := 0,
          funcs := [] } [] := by
  refine setupLayers_noop _ _ _ _ _ _ _ _ _ _ _ _ _ "3.0.0\ndeps" (by rfl) ?_
  intro c hc
  rfl

/-- **C7.** `getOrUploadLayer` derives a deterministic object key from the
layer name and fingerprint (`/fc-deploy/<layerName>/node_modules@<hash>.zip`)
and checks existence at that key first; whenever the object already exists
(and the dependency directory is present so no `SourceMissingError` fires),
it returns that location without performing any compression or upload work:
the world and the trace are returned unchanged. -/
theorem getOrUploadLayer_existing (headFault : String → Option String)
    (layerName curHash : String) (w : World) (t : List Event)
    (hFault : headFault (objectNameOf layerName curHash) = none)
    (hExists : w.oss.contains (objectNameOf layerName curHash) = true) :
    getOrUploadLayer true headFault layerName curHash w t
      = .ok (layerObjectOf layerName curHash) w t
    ∧ objectNameOf layerName curHash
      = "/fc-deploy/" ++ layerName ++ "/" ++ ("node_modules@" ++ curHash ++ ".zip") := by
  constructor
  · unfold getOrUploadLayer
    rw [if_neg (by simp)]
    have hoe : isObjectExist headFault w.oss (objectNameOf layerName curHash)
        = .ok true := by
      unfold isObjectExist
      rw [hFault, hExists]
    rw [hoe]
  · rfl

/-- Witness for C7: with the artifact already present in the bucket, the
handle is returned with no compression and no upload. -/
theorem getOrUploadLayer_existing_witness :
    getOrUploadLayer true (fun _ => none) "mylayer" "abc123"
        { oss := ["/fc-deploy/mylayer/node_modules@abc123.zip"],
          fcLayerVersions := none, nextVersion := 0, attempts := 0, funcs := [] }
        []
      = .ok (layerObjectOf "mylayer" "abc123")
        { oss := ["/fc-deploy/mylayer/node_modules@abc123.zip"],
          fcLayerVersions := none, nextVersion := 0, attempts := 0, funcs := [] }
        [] :=
  (getOrUploadLayer_existing (fun _ => none) "mylayer" "abc123" _ []
    rfl (by decide)).1

/-- **C2.** `getOrCreateLayer` scans the listed recent versions of the managed
layer (the model's `listedLayers` is the most-recent-first window of at most
10 returned by `listLayerVersions(layerName, {maxItems: 10})`) for one whose
description contains the current fingerprint; if such a version exists it is
a listed version, it is returned unchanged, and no new layer version is
published (the world is untouched); only when no listed version's description
contains the fingerprint is a new version created, with a description that
embeds the artifact file name (which itself embeds the fingerprint). -/
theorem getOrCreateLayer_resolve (publishOk : Nat → Bool) (curHash : String)
    (layerDescription : Option String) (layerName : String) (lo : LayerObject)
    (w : World) (t : List Event) :
    (∀ ly, findMatch w curHash = some ly →
        ly ∈ listedLayers w ∧ strIncludes ly.description curHash = true
        ∧ getOrCreateLayer publishOk curHash layerDescription layerName lo w t
          = .ok ly w (t ++ [.listVersions]))
    ∧ (findMatch w curHash = none →
        ∀ ly w' t',
          getOrCreateLayer publishOk curHash layerDescription layerName lo w t
            = .ok ly w' t' →
          ly.description = publishDesc layerDescription lo.depFileName
          ∧ w'.fcLayerVersions = some (ly :: w.fcLayerVersions.getD [])
          ∧ w'.nextVersion = w.nextVersion + 1) := by
  constructor
  · intro ly hm
    have hfind : (listedLayers w).find?
        (fun l => strIncludes l.description curHash) = some ly := hm
    have hp := List.find?_some
      (p := fun (l : Layer) => strIncludes l.description curHash) hfind
    refine ⟨List.mem_of_find?_eq_some hfind, by simpa using hp, ?_⟩
    unfold getOrCreateLayer
    rw [hm]
  · intro hm ly w' t' h
    unfold getOrCreateLayer at h
    rw [hm] at h
    obtain ⟨hd, _, _, _, hver, hvs, _⟩ :=
      retryCreate_ok_spec publishOk layerName
        (publishDesc layerDescription lo.depFileName)
        (removePrecedingSlash lo.objectName) retryBudget w _ ly w' t' h
    exact ⟨hd, hvs, hver⟩

/-- Witness for C2, reuse direction: a remote window already holding a version
whose description contains the fingerprint is returned unchanged. -/
theorem getOrCreateLayer_resolve_witness :
    (⟨"mylayer", 7, "fcd/node_modules@abc123.zip", "arn:7"⟩ : Layer)
        ∈ listedLayers
          { oss := [], fcLayerVersions := some
              [⟨"mylayer", 7, "fcd/node_modules@abc123.zip", "arn:7"⟩],
            nextVersion := 8, attempts := 0, funcs := [] }
    ∧ strIncludes "fcd/node_modules@abc123.zip" "abc123" = true
    ∧ getOrCreateLayer (fun _ => true) "abc123" none "mylayer"
        (layerObjectOf "mylayer" "abc123")
        { oss := [], fcLayerVersions := some
            [⟨"mylayer", 7, "fcd/node_modules@abc123.zip", "arn:7"⟩],
          nextVersion := 8, attempts := 0, funcs := [] } []
      = .ok ⟨"mylayer", 7, "fcd/node_modules@abc123.zip", "arn:7"⟩
        { oss := [], fcLayerVersions := some
            [⟨"mylayer", 7, "fcd/node_modules@abc123.zip", "arn:7"⟩],
          nextVersion := 8, attempts := 0, funcs := [] }
        [.listVersions] :=
  (getOrCreateLayer_resolve (fun _ => true) "abc123" none "mylayer"
      (layerObjectOf "mylayer" "abc123") _ []).1
    ⟨"mylayer", 7, "fcd/node_modules@abc123.zip", "arn:7"⟩ (by decide)

/-- **C1 (amended).** For every batch (any targets, any initial remote state,
any publish-fault pattern), `setupLayers` compresses the dependency artifact
at most once, uploads it at most once, and publishes at most one new layer
version — even though a reconciliation is performed for every changed target.
The artifact is built once per batch and shared; the layer version, however,
is re-resolved per changed target (each reconciliation re-lists the remote
versions — see the counterexample theorem), all resolutions converging on the
same published version. -/
theorem setupLayers_single_build
    (md5fn : String → String) (jsonVersion : String → Option (Option String))
    (fsRead : String → Option String) (getHash : String → String)
    (hasGetHash hasSetHash : Bool) (nmExists : Bool)
    (headFault : String → Option String) (publishOk : Nat → Bool)
    (cwdPkgPath : String) (fcConfigs : List IFcConfig)
    (packageJsonLists : Option (List String)) (layerDescription : Option String)
    (layerName : String) (w : World) (r : Res SetupResult)
    (h : setupLayers md5fn jsonVersion fsRead getHash hasGetHash hasSetHash
      nmExists headFault publishOk cwdPkgPath fcConfigs packageJsonLists
      layerDescription layerName w = r) :
    cnt evtUpload (traceOfRes r) ≤ 1 ∧ cnt evtCompress (traceOfRes r) ≤ 1
    ∧ (worldOfRes r).nextVersion ≤ w.nextVersion + 1 := by
  cases hh : getPackageDepsHash md5fn jsonVersion fsRead cwdPkgPath
      (packageJsonLists.getD [cwdPkgPath]) with
  | error e =>
    have hr : r = .fail (.hashErr e) w [] := by
      rw [← h]
      simp only [setupLayers, hh]
    subst hr
    refine ⟨by simp [traceOfRes, cnt], by simp [traceOfRes, cnt], ?_⟩
    show w.nextVersion ≤ w.nextVersion + 1
    omega
  | ok curHash =>
    by_cases hcb : (hasGetHash = false ∨ hasSetHash = false)
    · have hr : r = .fail .missingCallbacks w [] := by
        rw [← h]
        simp only [setupLayers, hh]
        rw [if_pos hcb]
      subst hr
      refine ⟨by simp [traceOfRes, cnt], by simp [traceOfRes, cnt], ?_⟩
      show w.nextVersion ≤ w.nextVersion + 1
      omega
    · by_cases hall : ((fcConfigs.map (fun c => getHash (funcKey c))).all
          (fun h => h = curHash)) = true
      · have hr : r = .ok { hash := curHash, layers := none } w [] := by
          rw [← h]
          simp only [setupLayers, hh]
          rw [if_neg hcb, if_pos hall]
        subst hr
        refine ⟨by simp [traceOfRes, cnt], by simp [traceOfRes, cnt], ?_⟩
        show w.nextVersion ≤ w.nextVersion + 1
        omega
      · cases hup : getOrUploadLayer nmExists headFault layerName curHash w [] with
        | fail e w₁ t₁ =>
          have hr : r = .fail e w₁ t₁ := by
            rw [← h]
            simp only [setupLayers, hh]
            rw [if_neg hcb, if_neg hall, hup]
          subst hr
          obtain ⟨_, hver1, _, htr1, _⟩ :=
            getOrUploadLayer_spec nmExists headFault layerName curHash w [] _ hup
          simp only [worldOfRes, traceOfRes] at hver1 htr1
          refine ⟨?_, ?_, ?_⟩
          · show cnt evtUpload t₁ ≤ 1
            rcases htr1 with h1 | h1 <;>
              simp [h1, cnt, List.filter, evtUpload]
          · show cnt evtCompress t₁ ≤ 1
            rcases htr1 with h1 | h1 <;>
              simp [h1, cnt, List.filter, evtCompress]
          · show w₁.nextVersion ≤ w.nextVersion + 1
            omega
        | ok lo w₁ t₁ =>
          obtain ⟨hfun1, hver1, hvs1, htr1, hlo⟩ :=
            getOrUploadLayer_spec nmExists headFault layerName curHash w [] _ hup
          simp only [worldOfRes, traceOfRes] at hfun1 hver1 hvs1 htr1
          have hdfn : strIncludes lo.depFileName curHash = true := by
            rw [hlo lo w₁ t₁ rfl]
            exact strIncludes_depFileName curHash
          have hbaseU : cnt evtUpload t₁ ≤ 1 := by
            rcases htr1 with h1 | h1 <;>
              simp [h1, cnt, List.filter, evtUpload]
          have hbaseC : cnt evtCompress t₁ ≤ 1 := by
            rcases htr1 with h1 | h1 <;>
              simp [h1, cnt, List.filter, evtCompress]
          cases hlp : setupLoop publishOk curHash layerDescription layerName lo
              (fcConfigs.zip (fcConfigs.map (fun c => getHash (funcKey c))))
              w₁ t₁ with
          | ok rs w₂ t₂ =>
            have hr : r = .ok { hash := curHash, layers := some rs } w₂ t₂ := by
              rw [← h]
              simp only [setupLayers, hh]
              rw [if_neg hcb, if_neg hall, hup]
              exact congrArg
                (fun x : Res (List (Option (List String))) => match x with
                  | Res.fail e₃ w₃ t₃ => Res.fail e₃ w₃ t₃
                  | Res.ok rs₃ w₃ t₃ =>
                    Res.ok (SetupResult.mk curHash (some rs₃)) w₃ t₃) hlp
            subst hr
            obtain ⟨_, _, ⟨u, hu, hlu⟩, _, hver2⟩ :=
              setupLoop_spec publishOk curHash layerDescription layerName lo
                _ w₁ t₁ _ hlp
            simp only [worldOfRes, traceOfRes] at hu hver2
            have hzU : cnt evtUpload u = 0 :=
              cnt_eq_zero _ fun e he => (layerEvt_not_upload (hlu e he)).1
            have hzC : cnt evtCompress u = 0 :=
              cnt_eq_zero _ fun e he => (layerEvt_not_upload (hlu e he)).2.1
            refine ⟨?_, ?_, ?_⟩
            · show cnt evtUpload t₂ ≤ 1
              rw [hu, cnt_append]
              omega
            · show cnt evtCompress t₂ ≤ 1
              rw [hu, cnt_append]
              omega
            · show w₂.nextVersion ≤ w.nextVersion + 1
              have := hver2 hdfn
              omega
          | fail e w₂ t₂ =>
            have hr : r = .fail e w₂ t₂ := by
              rw [← h]
              simp only [setupLayers, hh]
              rw [if_neg hcb, if_neg hall, hup]
              exact congrArg
                (fun x : Res (List (Option (List String))) => match x with
                  | Res.fail e₃ w₃ t₃ => Res.fail e₃ w₃ t₃
                  | Res.ok rs₃ w₃ t₃ =>
                    Res.ok (SetupResult.mk curHash (some rs₃)) w₃ t₃) hlp
            subst hr
            obtain ⟨_, _, ⟨u, hu, hlu⟩, _, hver2⟩ :=
              setupLoop_spec publishOk curHash layerDescription layerName lo
                _ w₁ t₁ _ hlp
            simp only [worldOfRes, traceOfRes] at hu hver2
            have hzU : cnt evtUpload u = 0 :=
              cnt_eq_zero _ fun e' he' => (layerEvt_not_upload (hlu e' he')).1
            have hzC : cnt evtCompress u = 0 :=
              cnt_eq_zero _ fun e' he' => (layerEvt_not_upload (hlu e' he')).2.1
            refine ⟨?_, ?_, ?_⟩
            · show cnt evtUpload t₂ ≤ 1
              rw [hu, cnt_append]
              omega
            · show cnt evtCompress t₂ ≤ 1
              rw [hu, cnt_append]
              omega
            · show w₂.nextVersion ≤ w.nextVersion + 1
              have := hver2 hdfn
              omega

/-- Witness for the amended C1: a concrete two-target batch in which both
targets changed — one compression, one upload, one published version. -/
theorem setupLayers_single_build_witness :
    cnt evtUpload (traceOfRes (setupLayers (fun s => s)
        (fun _ => some (some "1.0.0")) (fun _ => some "deps") (fun _ => "old")
        true true true (fun _ => none) (fun _ => true) "package.json"
        [⟨"ak", "sk", "ep", "rg", "svc", "f1"⟩, ⟨"ak", "sk", "ep", "rg", "svc", "f2"⟩]
        (some ["manifest.json"]) none "mylayer"
        { oss := [], fcLayerVersions := none, nextVersion := 0, attempts := 0,
          funcs := [] })) ≤ 1
    ∧ cnt evtCompress (traceOfRes (setupLayers (fun s => s)
        (fun _ => some (some "1.0.0")) (fun _ => some "deps") (fun _ => "old")
        true true true (fun _ => none) (fun _ => true) "package.json"
        [⟨"ak", "sk", "ep", "rg", "svc", "f1"⟩, ⟨"ak", "sk", "ep", "rg", "svc", "f2"⟩]
        (some ["manifest.json"]) none "mylayer"
        { oss := [], fcLayerVersions := none, nextVersion := 0, attempts := 0,
          funcs := [] })) ≤ 1
    ∧ (worldOfRes (setupLayers (fun s => s)
        (fun _ => some (some "1.0.0")) (fun _ => some "deps") (fun _ => "old")
        true true true (fun _ => none) (fun _ => true) "package.json"
        [⟨"ak", "sk", "ep", "rg", "svc", "f1"⟩, ⟨"ak", "sk", "ep", "rg", "svc", "f2"⟩]
        (some ["manifest.json"]) none "mylayer"
        { oss := [], fcLayerVersions := none, nextVersion := 0, attempts := 0,
          funcs := [] })).nextVersion ≤ 0 + 1 :=
  setupLayers_single_build (fun s => s) (fun _ => some (some "1.0.0"))
    (fun _ => some "deps") (fun _ => "old") true true true (fun _ => none)
    (fun _ => true) "package.json"
    [⟨"ak", "sk", "ep", "rg", "svc", "f1"⟩, ⟨"ak", "sk", "ep", "rg", "svc", "f2"⟩]
    (some ["manifest.json"]) none "mylayer"
    { oss := [], fcLayerVersions := none, nextVersion := 0, attempts := 0,
      funcs := [] } _ rfl

/-- A concrete two-target batch in which both targets' stored fingerprints
differ from the current one (empty object store, layer never created, all
remote calls succeed). -/
def cexBatchRun : Res SetupResult :=
  setupLayers (fun s => s) (fun _ => some (some "1.0.0")) (fun _ => some "deps")
    (fun _ => "old") true true true (fun _ => none) (fun _ => true) "package.json"
    [⟨"ak", "sk", "ep", "rg", "svc", "f1"⟩, ⟨"ak", "sk", "ep", "rg", "svc", "f2"⟩]
    (some ["manifest.json"]) none "mylayer"
    { oss := [], fcLayerVersions := none, nextVersion := 0, attempts := 0,
      funcs := [] }

/-- **C1 (counterexample).** The claim states that the layer version is
computed once per batch and never re-derived per target. In this concrete
batch with two changed targets the engine performs the version resolution
(`listLayerVersions` + description scan inside `getOrCreateLayer`) once per
changed target — the trace holds two `listVersions` events, not one — even
though only one version is published (`nextVersion` rises by exactly one) and
the artifact is compressed and uploaded exactly once. -/
theorem setupLayers_resolution_per_target_cex :
    cnt evtListVersions (traceOfRes cexBatchRun) = 2
    ∧ (worldOfRes cexBatchRun).nextVersion = 1
    ∧ cnt evtUpload (traceOfRes cexBatchRun) = 1
    ∧ cnt evtCompress (traceOfRes cexBatchRun) = 1 := by
  decide

/-- `setupLayers` never performs a fingerprint write-back: no `setHash` event
appears in its trace, on success or on failure (write-back belongs to the
orchestrator). -/
theorem setupLayers_no_setHash
    (md5fn : String → String) (jsonVersion : String → Option (Option String))
    (fsRead : String → Option String) (getHash : String → String)
    (hasGetHash hasSetHash : Bool) (nmExists : Bool)
    (headFault : String → Option String) (publishOk : Nat → Bool)
    (cwdPkgPath : String) (fcConfigs : List IFcConfig)
    (packageJsonLists : Option (List String)) (layerDescription : Option String)
    (layerName : String) (w : World) (r : Res SetupResult)
    (h : setupLayers md5fn jsonVersion fsRead getHash hasGetHash hasSetHash
      nmExists headFault publishOk cwdPkgPath fcConfigs packageJsonLists
      layerDescription layerName w = r) :
    ∀ e ∈ traceOfRes r, evtSetHash e = false := by
  cases hh : getPackageDepsHash md5fn jsonVersion fsRead cwdPkgPath
      (packageJsonLists.getD [cwdPkgPath]) with
  | error e =>
    have hr : r = .fail (.hashErr e) w [] := by
      rw [← h]
      simp only [setupLayers, hh]
    subst hr
    intro e' he'
    simp [traceOfRes] at he'
  | ok curHash =>
    by_cases hcb : (hasGetHash = false ∨ hasSetHash = false)
    · have hr : r = .fail .missingCallbacks w [] := by
        rw [← h]
        simp only [setupLayers, hh]
        rw [if_pos hcb]
      subst hr
      intro e' he'
      simp [traceOfRes] at he'
    · by_cases hall : ((fcConfigs.map (fun c => getHash (funcKey c))).all
          (fun h => h = curHash)) = true
      · have hr : r = .ok { hash := curHash, layers := none } w [] := by
          rw [← h]
          simp only [setupLayers, hh]
          rw [if_neg hcb, if_pos hall]
        subst hr
        intro e' he'
        simp [traceOfRes] at he'
      · have hbase : ∀ w₁ t₁, (traceOfRes (Res.fail (α := SetupResult) Err.missingCallbacks w₁ t₁) = t₁) := fun _ _ => rfl
        cases hup : getOrUploadLayer nmExists headFault layerName curHash w [] with
        | fail e w₁ t₁ =>
          have hr : r = .fail e w₁ t₁ := by
            rw [← h]
            simp only [setupLayers, hh]
            rw [if_neg hcb, if_neg hall, hup]
          subst hr
          obtain ⟨_, _, _, htr1, _⟩ :=
            getOrUploadLayer_spec nmExists headFault layerName curHash w [] _ hup
          simp only [traceOfRes] at htr1 ⊢
          intro e' he'
          rcases htr1 with h1 | h1 <;> rw [h1] at he'
          · simp at he'
          · simp at he'
            rcases he' with rfl | rfl <;> rfl
        | ok lo w₁ t₁ =>
          obtain ⟨_, _, _, htr1, _⟩ :=
            getOrUploadLayer_spec nmExists headFault layerName curHash w [] _ hup
          simp only [traceOfRes] at htr1
          have hT1 : ∀ e' ∈ t₁, evtSetHash e' = false := by
            intro e' he'
            rcases htr1 with h1 | h1 <;> rw [h1] at he'
            · simp at he'
            · simp at he'
              rcases he' with rfl | rfl <;> rfl
          cases hlp : setupLoop publishOk curHash layerDescription layerName lo
              (fcConfigs.zip (fcConfigs.map (fun c => getHash (funcKey c))))
              w₁ t₁ with
          | ok rs w₂ t₂ =>
            have hr : r = .ok { hash := curHash, layers := some rs } w₂ t₂ := by
              rw [← h]
              simp only [setupLayers, hh]
              rw [if_neg hcb, if_neg hall, hup]
              exact congrArg
                (fun x : Res (List (Option (List String))) => match x with
                  | Res.fail e₃ w₃ t₃ => Res.fail e₃ w₃ t₃
                  | Res.ok rs₃ w₃ t₃ =>
                    Res.ok (SetupResult.mk curHash (some rs₃)) w₃ t₃) hlp
            subst hr
            obtain ⟨_, _, ⟨u, hu, hlu⟩, _, _⟩ :=
              setupLoop_spec publishOk curHash layerDescription layerName lo
                _ w₁ t₁ _ hlp
            simp only [traceOfRes] at hu ⊢
            intro e' he'
            rw [hu] at he'
            rcases List.mem_append.mp he' with h1 | h2
            · exact hT1 e' h1
            · exact (layerEvt_not_upload (hlu e' h2)).2.2
          | fail e w₂ t₂ =>
            have hr : r = .fail e w₂ t₂ := by
              rw [← h]
              simp only [setupLayers, hh]
              rw [if_neg hcb, if_neg hall, hup]
              exact congrArg
                (fun x : Res (List (Option (List String))) => match x with
                  | Res.fail e₃ w₃ t₃ => Res.fail e₃ w₃ t₃
                  | Res.ok rs₃ w₃ t₃ =>
                    Res.ok (SetupResult.mk curHash (some rs₃)) w₃ t₃) hlp
            subst hr
            obtain ⟨_, _, ⟨u, hu, hlu⟩, _, _⟩ :=
              setupLoop_spec publishOk curHash layerDescription layerName lo
                _ w₁ t₁ _ hlp
            simp only [traceOfRes] at hu ⊢
            intro e' he'
            rw [hu] at he'
            rcases List.mem_append.mp he' with h1 | h2
            · exact hT1 e' h1
            · exact (layerEvt_not_upload (hlu e' h2)).2.2

/-! ## Deploy orchestrator

The current multi-target `deploy` entry point is declared by the README
(`deploy({name, fcConfigs, layerConfig, ossConfig, cbLog})`) but its source
file is not under `src/`; it is modelled here from the specification. -/

/-- Modelled from the spec: the sequential per-target apply loop of the
missing multi-target `deploy` orchestrator. Per spec §2.5 and §5, each
target's function update (`updateFunction`, carrying the packaged code and,
when present, that target's reconciled layer list) is applied in input order;
the new fingerprint is persisted (`setHash`) only for targets that actually
changed (those with a reconciled list), immediately after that target's
update succeeds; the first failed update aborts the batch (fail-fast), so an
`updateFn` event is emitted only for a successful update. `updOk funcName`
decides whether the control-plane update of that target succeeds. -/
def deployLoop (updOk : String → Bool) (hash : String) :
    List (IFcConfig × Option (List String)) → World → List Event → Res Unit
  | [], w, t => .ok () w t
  | (c, lrs) :: rest, w, t =>
    if updOk (funcKey c) then
      match lrs with
      | some _ =>
        deployLoop updOk hash rest w
          (t ++ [.updateFn (funcKey c), .setHashEvt (funcKey c) hash])
      | none => deployLoop updOk hash rest w (t ++ [.updateFn (funcKey c)])
    else .fail (.updateFailed (funcKey c)) w t

/-- Modelled from the spec: the missing multi-target `deploy` orchestrator.
It runs `setupLayers` for the whole batch (propagating its failure untouched)
and then applies the per-target results sequentially: when the batch result
is the "no layer work needed" sentinel, no target is treated as changed. -/
def deployModel (md5fn : String → String)
    (jsonVersion : String → Option (Option String))
    (fsRead : String → Option String) (getHash : String → String)
    (hasGetHash hasSetHash : Bool) (nmExists : Bool)
    (headFault : String → Option String) (publishOk : Nat → Bool)
    (cwdPkgPath : String) (fcConfigs : List IFcConfig)
    (packageJsonLists : Option (List String)) (layerDescription : Option String)
    (layerName : String) (updOk : String → Bool) (w : World) : Res Unit :=
  match setupLayers md5fn jsonVersion fsRead getHash hasGetHash hasSetHash
      nmExists headFault publishOk cwdPkgPath fcConfigs packageJsonLists
      layerDescription layerName w with
  | .fail e wb tb => .fail e wb tb
  | .ok res w₁ t₁ =>
    match res.layers with
    | none =>
      deployLoop updOk res.hash (fcConfigs.map (fun c => (c, none))) w₁ t₁
    | some rs => deployLoop updOk res.hash (fcConfigs.zip rs) w₁ t₁

/-- Every fingerprint write-back event in the trace is preceded by a
successful function-update event for the same target. -/
def setHashPreceded (t : List Event) : Prop :=
  ∀ (i : Nat) (fn hsh : String), t[i]? = some (Event.setHashEvt fn hsh) →
    ∃ j : Nat, j < i ∧ t[j]? = some (Event.updateFn fn)

theorem setHashPreceded_of_none {t : List Event}
    (h : ∀ e ∈ t, evtSetHash e = false) : setHashPreceded t := by
  intro i fn hsh hi
  exfalso
  have hmem : Event.setHashEvt fn hsh ∈ t := List.getElem?_mem hi
  have := h _ hmem
  simp [evtSetHash] at this

theorem setHashPreceded_append_updateFn {t : List Event} (k : String)
    (h : setHashPreceded t) : setHashPreceded (t ++ [.updateFn k]) := by
  intro i fn hsh hi
  rw [List.getElem?_append] at hi
  by_cases hlt : i < t.length
  · rw [if_pos hlt] at hi
    obtain ⟨j, hj, hgj⟩ := h i fn hsh hi
    refine ⟨j, hj, ?_⟩
    rw [List.getElem?_append, if_pos (by omega)]
    exact hgj
  · rw [if_neg hlt] at hi
    cases hd : i - t.length with
    | zero => rw [hd] at hi; simp at hi
    | succ m => rw [hd] at hi; simp at hi

theorem setHashPreceded_append_pair {t : List Event} (k hsh₀ : String)
    (h : setHashPreceded t) :
    setHashPreceded (t ++ [.updateFn k, .setHashEvt k hsh₀]) := by
  intro i fn hsh hi
  rw [List.getElem?_append] at hi
  by_cases hlt : i < t.length
  · rw [if_pos hlt] at hi
    obtain ⟨j, hj, hgj⟩ := h i fn hsh hi
    refine ⟨j, hj, ?_⟩
    rw [List.getElem?_append, if_pos (by omega)]
    exact hgj
  · rw [if_neg hlt] at hi
    cases hd : i - t.length with
    | zero => rw [hd] at hi; simp at hi
    | succ m =>
      cases m with
      | zero =>
        rw [hd] at hi
        simp at hi
        refine ⟨t.length, by omega, ?_⟩
        rw [List.getElem?_append, if_neg (by omega), Nat.sub_self]
        simp [hi.1]
      | succ m' => rw [hd] at hi; simp at hi

theorem deployLoop_preceded (updOk : String → Bool) (hash : String) :
    ∀ (lst : List (IFcConfig × Option (List String))) (w : World)
      (t : List Event), setHashPreceded t →
      setHashPreceded (traceOfRes (deployLoop updOk hash lst w t)) := by
  intro lst
  induction lst with
  | nil => intro w t ht; exact ht
  | cons p rest ih =>
    obtain ⟨c, lrs⟩ := p
    intro w t ht
    simp only [deployLoop]
    by_cases hu : updOk (funcKey c) = true
    · rw [if_pos hu]
      cases lrs with
      | some ls => exact ih w _ (setHashPreceded_append_pair _ _ ht)
      | none => exact ih w _ (setHashPreceded_append_updateFn _ ht)
    · rw [if_neg hu]
      exact ht

/-- **C6.** In every run of the deploy orchestrator (modelled from the spec —
the multi-target `deploy` is declared by the README but its file is not under
`src/`), the persistence write-back of the new fingerprint (`setHash`) for a
target is performed only after that target's function update has completed
successfully, never before it: every `setHash` event in the trace — whether
the run succeeds or aborts — is preceded by a successful `updateFn` event for
the same target, and `setupLayers` itself performs no write-back at all. -/
theorem deploy_setHash_after_update (md5fn : String → String)
    (jsonVersion : String → Option (Option String))
    (fsRead : String → Option String) (getHash : String → String)
    (hasGetHash hasSetHash : Bool) (nmExists : Bool)
    (headFault : String → Option String) (publishOk : Nat → Bool)
    (cwdPkgPath : String) (fcConfigs : List IFcConfig)
    (packageJsonLists : Option (List String)) (layerDescription : Option String)
    (layerName : String) (updOk : String → Bool) (w : World) (r : Res Unit)
    (h : deployModel md5fn jsonVersion fsRead getHash hasGetHash hasSetHash
      nmExists headFault publishOk cwdPkgPath fcConfigs packageJsonLists
      layerDescription layerName updOk w = r) :
    setHashPreceded (traceOfRes r) := by
  cases hs : setupLayers md5fn jsonVersion fsRead getHash hasGetHash hasSetHash
      nmExists headFault publishOk cwdPkgPath fcConfigs packageJsonLists
      layerDescription layerName w with
  | fail e wb tb =>
    have hr : r = .fail e wb tb := by
      rw [← h]
      unfold deployModel
      rw [hs]
    subst hr
    exact setHashPreceded_of_none
      (setupLayers_no_setHash _ _ _ _ _ _ _ _ _ _ _ _ _ _ _ _ hs)
  | ok res w₁ t₁ =>
    have ht₁ : setHashPreceded t₁ :=
      setHashPreceded_of_none
        (setupLayers_no_setHash _ _ _ _ _ _ _ _ _ _ _ _ _ _ _ _ hs)
    cases hl : res.layers with
    | none =>
      have hr : r = deployLoop updOk res.hash
          (fcConfigs.map (fun c => (c, none))) w₁ t₁ := by
        rw [← h]
        unfold deployModel
        rw [hs]
        show (match res.layers with
          | none =>
            deployLoop updOk res.hash (List.map (fun c => (c, none)) fcConfigs)
              w₁ t₁
          | some rs => deployLoop updOk res.hash (fcConfigs.zip rs) w₁ t₁) = _
        rw [hl]
      subst hr
      exact deployLoop_preceded updOk res.hash _ w₁ t₁ ht₁
    | some rs =>
      have hr : r = deployLoop updOk res.hash (fcConfigs.zip rs) w₁ t₁ := by
        rw [← h]
        unfold deployModel
        rw [hs]
        show (match res.layers with
          | none =>
            deployLoop updOk res.hash (List.map (fun c => (c, none)) fcConfigs)
              w₁ t₁
          | some rs => deployLoop updOk res.hash (fcConfigs.zip rs) w₁ t₁) = _
        rw [hl]
      subst hr
      exact deployLoop_preceded updOk res.hash _ w₁ t₁ ht₁

/-- Witness for C6: the concrete two-changed-target batch, run through the
orchestrator with all updates succeeding. -/
theorem deploy_setHash_after_update_witness :
    setHashPreceded (traceOfRes (deployModel (fun s => s)
      (fun _ => some (some "1.0.0")) (fun _ => some "deps") (fun _ => "old")
      true true true (fun _ => none) (fun _ => true) "package.json"
      [⟨"ak", "sk", "ep", "rg", "svc", "f1"⟩, ⟨"ak", "sk", "ep", "rg", "svc", "f2"⟩]
      (some ["manifest.json"]) none "mylayer" (fun _ => true)
      { oss := [], fcLayerVersions := none, nextVersion := 0, attempts := 0,
        funcs := [] })) :=
  deploy_setHash_after_update (fun s => s) (fun _ => some (some "1.0.0"))
    (fun _ => some "deps") (fun _ => "old") true true true (fun _ => none)
    (fun _ => true) "package.json"
    [⟨"ak", "sk", "ep", "rg", "svc", "f1"⟩, ⟨"ak", "sk", "ep", "rg", "svc", "f2"⟩]
    (some ["manifest.json"]) none "mylayer" (fun _ => true)
    { oss := [], fcLayerVersions := none, nextVersion := 0, attempts := 0,
      funcs := [] } _ rfl

/-- **C8.** The layer-version publish call runs under a fixed bounded retry
budget (`retry(..., { retries: 3 })`: one initial attempt plus three retries,
`retryBudget = 4` attempts in total) with every failure treated as retryable:
with a publish oracle that always fails and no reusable listed version, the
resolution performs exactly `retryBudget` publish attempts and then throws
`publishFailed`; a batch whose `setupLayers` fails propagates that error
unchanged through the deploy orchestrator, and no fingerprint is written for
any target (the failing trace contains no `setHash` event). -/
theorem publish_retry_exhaustion
    (publishOk : Nat → Bool) (hfail : ∀ n, publishOk n = false)
    (curHash : String) (layerDescription : Option String) (layerName : String)
    (lo : LayerObject) (w : World) (t : List Event)
    (hNoMatch : findMatch w curHash = none)
    (md5fn : String → String) (jsonVersion : String → Option (Option String))
    (fsRead : String → Option String) (getHash : String → String)
    (hasGetHash hasSetHash : Bool) (nmExists : Bool)
    (headFault : String → Option String) (cwdPkgPath : String)
    (fcConfigs : List IFcConfig) (packageJsonLists : Option (List String))
    (updOk : String → Bool) (wb : World) (e : Err) (wf : World) (tb : List Event)
    (hBatch : setupLayers md5fn jsonVersion fsRead getHash hasGetHash hasSetHash
      nmExists headFault publishOk cwdPkgPath fcConfigs packageJsonLists
      layerDescription layerName wb = .fail e wf tb) :
    getOrCreateLayer publishOk curHash layerDescription layerName lo w t
      = .fail .publishFailed { w with attempts := w.attempts + retryBudget }
        (t ++ .listVersions :: List.replicate retryBudget .publishAttempt)
    ∧ deployModel md5fn jsonVersion fsRead getHash hasGetHash hasSetHash
        nmExists headFault publishOk cwdPkgPath fcConfigs packageJsonLists
        layerDescription layerName updOk wb = .fail e wf tb
    ∧ cnt evtSetHash tb = 0 := by
  refine ⟨?_, ?_, ?_⟩
  · unfold getOrCreateLayer
    rw [hNoMatch]
    show retryCreate publishOk layerName
        (publishDesc layerDescription lo.depFileName)
        (removePrecedingSlash lo.objectName) retryBudget w
        (t ++ [Event.listVersions]) = _
    rw [retryCreate_allFail publishOk hfail layerName
      (publishDesc layerDescription lo.depFileName)
      (removePrecedingSlash lo.objectName) retryBudget w
      (t ++ [Event.listVersions]), List.append_assoc]
    rfl
  · unfold deployModel
    rw [hBatch]
  · have hns := setupLayers_no_setHash md5fn jsonVersion fsRead getHash
      hasGetHash hasSetHash nmExists headFault publishOk cwdPkgPath fcConfigs
      packageJsonLists layerDescription layerName wb _ hBatch
    exact cnt_eq_zero _ fun e' he' => hns e' he'

/-- Witness for C8: the two-changed-target batch with a publish oracle that
always fails — the first changed target's resolution exhausts all four
attempts, the batch fails with `publishFailed`, the orchestrator propagates
it and the trace holds no write-back. -/
theorem publish_retry_exhaustion_witness :
    getOrCreateLayer (fun _ => false) "h0" none "mylayer"
        (layerObjectOf "mylayer" "h0")
        { oss := [], fcLayerVersions := none, nextVersion := 0, attempts := 0,
          funcs := [] } []
      = .fail .publishFailed
        { oss := [], fcLayerVersions := none, nextVersion := 0,
          attempts := 0 + retryBudget, funcs := [] }
        ([] ++ .listVersions :: List.replicate retryBudget .publishAttempt)
    ∧ deployModel (fun s => s) (fun _ => some (some "1.0.0"))
        (fun _ => some "deps") (fun _ => "old") true true true (fun _ => none)
        (fun _ => false) "package.json"
        [⟨"ak", "sk", "ep", "rg", "svc", "f1"⟩, ⟨"ak", "sk", "ep", "rg", "svc", "f2"⟩]
        (some ["manifest.json"]) none "mylayer" (fun _ => true)
        { oss := [], fcLayerVersions := none, nextVersion := 0, attempts := 0,
          funcs := [] }
      = .fail .publishFailed
        { oss := ["/fc-deploy/mylayer/node_modules@1.0.0\ndeps.zip"],
          fcLayerVersions := none, nextVersion := 0, attempts := 4, funcs := [] }
        [.compress, .upload "/fc-deploy/mylayer/node_modules@1.0.0\ndeps.zip",
          .getFn "svc" "f1", .listVersions, .publishAttempt, .publishAttempt,
          .publishAttempt, .publishAttempt]
    ∧ cnt evtSetHash
        [.compress, .upload "/fc-deploy/mylayer/node_modules@1.0.0\ndeps.zip",
          .getFn "svc" "f1", .listVersions, .publishAttempt, .publishAttempt,
          .publishAttempt, .publishAttempt] = 0 :=
  publish_retry_exhaustion (fun _ => false) (fun _ => rfl) "h0" none "mylayer"
    (layerObjectOf "mylayer" "h0")
    { oss := [], fcLayerVersions := none, nextVersion := 0, attempts := 0,
      funcs := [] } [] (by decide) (fun s => s) (fun _ => some (some "1.0.0"))
    (fun _ => some "deps") (fun _ => "old") true true true (fun _ => none)
    "package.json"
    [⟨"ak", "sk", "ep", "rg", "svc", "f1"⟩, ⟨"ak", "sk", "ep", "rg", "svc", "f2"⟩]
    (some ["manifest.json"]) (fun _ => true)
    { oss := [], fcLayerVersions := none, nextVersion := 0, attempts := 0,
      funcs := [] } .publishFailed
    { oss := ["/fc-deploy/mylayer/node_modules@1.0.0\ndeps.zip"],
      fcLayerVersions := none, nextVersion := 0, attempts := 4, funcs := [] }
    [.compress, .upload "/fc-deploy/mylayer/node_modules@1.0.0\ndeps.zip",
      .getFn "svc" "f1", .listVersions, .publishAttempt, .publishAttempt,
      .publishAttempt, .publishAttempt] (by decide)

end FcDeploy
